import Mathlib

/-!
Verification of the TxEditor grid-native text buffer engine.

Shallow embedding conventions:
* A grapheme cell is modelled as a single `Char` (one Unicode code point).
  The source segments text into grapheme clusters with `Intl.Segmenter`;
  at the granularity used by the buffer engine every cluster is treated
  atomically, so a one-code-point cell is a faithful model of the cell
  algebra (multi-code-point clusters flow through the same branches).
* A JS string holding internal row content is modelled as `List Char`;
  `toCells` is the identity on this representation.
* Row/column coordinates that the source allows to be negative are `Int`;
  sizes and list indices are `Nat`.
* JS numbers never overflow for the integer ranges used here (≤ 2000),
  so no modular arithmetic is needed.
-/

namespace TxEditor

/-- `CONTINUATION_CELL` from src/core/cells.ts (`'\u0001'`). -/
def CONTINUATION_CELL : Char := Char.ofNat 1

/-- `TRANSPARENT_CELL` from src/core/cells.ts (`'\u0000'`). -/
def TRANSPARENT_CELL : Char := Char.ofNat 0

/-- A row of cells: the model of an internal line string. -/
abbrev Line := List Char

/-- `TextBuffer` from src/core/cells.ts. -/
structure TextBuffer where
  width : Nat
  height : Nat
  lines : List Line
deriving DecidableEq, Repr

/-- `Layer` from src/core/cells.ts. -/
structure Layer where
  id : String
  name : String
  visible : Bool
  locked : Bool
  buffer : TextBuffer
deriving DecidableEq, Repr

/-- `isFullWidthCodePoint` from src/core/cells.ts, ported range for range. -/
def isFullWidthCodePoint (cp : Nat) : Bool :=
  if cp < 0x1100 then false
  else if cp = 0x2329 ∨ cp = 0x232a then true
  else if 0x1100 ≤ cp ∧ cp ≤ 0x115f then true
  else if 0x2e80 ≤ cp ∧ cp ≤ 0x3247 ∧ cp ≠ 0x303f then true
  else if 0x3250 ≤ cp ∧ cp ≤ 0x4dbf then true
  else if 0x4e00 ≤ cp ∧ cp ≤ 0xa4c6 then true
  else if 0xa960 ≤ cp ∧ cp ≤ 0xa97c then true
  else if 0xac00 ≤ cp ∧ cp ≤ 0xd7a3 then true
  else if 0xf900 ≤ cp ∧ cp ≤ 0xfaff then true
  else if 0xfe10 ≤ cp ∧ cp ≤ 0xfe19 then true
  else if 0xfe30 ≤ cp ∧ cp ≤ 0xfe6b then true
  else if 0xff01 ≤ cp ∧ cp ≤ 0xff60 then true
  else if 0xffe0 ≤ cp ∧ cp ≤ 0xffe6 then true
  else if 0x1b000 ≤ cp ∧ cp ≤ 0x1b001 then true
  else if 0x1f200 ≤ cp ∧ cp ≤ 0x1f251 then true
  else if 0x20000 ≤ cp ∧ cp ≤ 0x3fffd then true
  else false

/-- `isWideGrapheme` from src/core/cells.ts, for a one-code-point grapheme:
the per-code-point loop collapses to a test on that code point. -/
def isWideGrapheme (g : Char) : Bool :=
  if g = CONTINUATION_CELL then false
  else
    let cp := g.toNat
    if cp = 0x200d then true
    else if cp = 0xfe0f then true
    else if 0x1f300 ≤ cp ∧ cp ≤ 0x1faff then true
    else isFullWidthCodePoint cp

/-- `cellDisplayWidth` from src/core/cells.ts. -/
def cellDisplayWidth (g : Char) : Nat :=
  if isWideGrapheme g then 2 else 1

/-- `toCells` from src/core/cells.ts: grapheme segmentation, the identity
on the `List Char` model of a string. -/
def toCells (text : List Char) : List Char := text

/-- `toDisplayText` from src/core/cells.ts: replace every continuation
sentinel with a space. -/
def toDisplayText (text : List Char) : List Char :=
  text.map fun c => if c = CONTINUATION_CELL then ' ' else c

/-- Walk of `cellLength` from src/core/cells.ts; when `skip` is set the
walk is inside the `while (cells[j] === CONTINUATION_CELL) j += 1` run
skip that follows a wide cell. -/
def cellLengthAux : List Char → Bool → Nat
  | [], _ => 0
  | c :: rest, skip =>
    if skip ∧ c = CONTINUATION_CELL then cellLengthAux rest true
    else if c = CONTINUATION_CELL then 1 + cellLengthAux rest false
    else if cellDisplayWidth c = 2 ∧ rest.head? = some CONTINUATION_CELL then
      2 + cellLengthAux rest true
    else cellDisplayWidth c + cellLengthAux rest false

/-- `cellLength` from src/core/cells.ts: display columns occupied by a
pre-encoded internal row. -/
def cellLength (text : List Char) : Nat := cellLengthAux text false

/-- Inner loop of `sliceCells` from src/core/cells.ts, tracking the
running column; `skip` marks the continuation-run skip after a wide cell. -/
def sliceCellsAux (width : Nat) : List Char → Nat → Bool → List Char
  | [], _, _ => []
  | c :: rest, col, skip =>
    if skip ∧ c = CONTINUATION_CELL then sliceCellsAux width rest col true
    else if c = '\n' ∨ c = '\r' then []
    else if c = CONTINUATION_CELL then
      if col + 1 > width then []
      else CONTINUATION_CELL :: sliceCellsAux width rest (col + 1) false
    else if cellDisplayWidth c = 2 then
      if col + 2 > width then []
      else c :: CONTINUATION_CELL :: sliceCellsAux width rest (col + 2) true
    else
      if col + 1 > width then []
      else c :: sliceCellsAux width rest (col + 1) false

/-- `sliceCells` from src/core/cells.ts: truncate a run of cells so its
display width does not exceed `width`. -/
def sliceCells (text : List Char) (width : Nat) : List Char :=
  if width = 0 then [] else sliceCellsAux width (toCells text) 0 false

/-- `cloneLines` from src/core/cells.ts: exactly `height` rows, blank
rows synthesized where the source is shorter. -/
def cloneLines (lines : List Line) (height : Nat) : List Line :=
  (List.range height).map fun i => lines.getD i []

/-- `padCells` from src/core/cells.ts. -/
def padCells (text : List Char) (width : Nat) : List Char :=
  if width ≤ cellLength text then text
  else text ++ List.replicate (width - cellLength text) ' '

/-- Walk of `getCellAt` from src/core/cells.ts; `skip` marks the
continuation-run skip after a wide cell. -/
def getCellAtAux : List Char → Nat → Bool → Char
  | [], _, _ => ' '
  | c :: rest, i, skip =>
    if skip ∧ c = CONTINUATION_CELL then getCellAtAux rest i true
    else if c = CONTINUATION_CELL then
      if i = 0 then CONTINUATION_CELL else getCellAtAux rest (i - 1) false
    else if cellDisplayWidth c = 2 then
      if i = 0 then c
      else if i = 1 then CONTINUATION_CELL
      else getCellAtAux rest (i - 2) true
    else
      if i = 0 then c else getCellAtAux rest (i - 1) false

/-- `getCellAt` from src/core/cells.ts: O(n) scan resolving a display
column to the content cell, continuation sentinel, or implicit blank at
that column.  The model takes the (guarded nonnegative) index as `Nat`. -/
def getCellAt (text : List Char) (i : Nat) : Char := getCellAtAux text i false

/-- The `text.replace(/\r\n/g, '\n')` step of `toInternalText`
(leftmost, non-overlapping global replacement). -/
def replaceCrLf : List Char → List Char
  | '\r' :: '\n' :: rest => '\n' :: replaceCrLf rest
  | c :: rest => c :: replaceCrLf rest
  | [] => []

/-- The per-cell loop of `toInternalText` from src/core/cells.ts. -/
def internalizeCells : List Char → List Char
  | [] => []
  | c :: rest =>
    if c = '\r' then internalizeCells rest
    else if c = '\n' then '\n' :: internalizeCells rest
    else if c = CONTINUATION_CELL then CONTINUATION_CELL :: internalizeCells rest
    else if cellDisplayWidth c = 2 then c :: CONTINUATION_CELL :: internalizeCells rest
    else c :: internalizeCells rest

/-- `toInternalText` from src/core/cells.ts: normalize CRLF, then insert a
continuation sentinel after each wide grapheme, dropping carriage returns. -/
def toInternalText (text : List Char) : List Char :=
  internalizeCells (toCells (replaceCrLf text))

/-- The `while (start > 0 && cells[start] === CONTINUATION_CELL) start -= 1`
scan inside `setCharInLines`: walk left from `i` over a continuation run,
stopping at index 0 or at the first non-continuation cell. -/
def contRunStart (cells : List Char) : Nat → Nat
  | 0 => 0
  | i + 1 =>
    if cells.getD (i + 1) ' ' = CONTINUATION_CELL then contRunStart cells i else i + 1

/-- Loop body for `clearContRunFrom` with `k` the remaining iterations up
to the (set-invariant) row length. -/
def clearContRunFromAux : List Char → Nat → Nat → List Char
  | cells, _, 0 => cells
  | cells, i, k + 1 =>
    if cells.getD i ' ' = CONTINUATION_CELL then clearContRunFromAux (cells.set i ' ') (i + 1) k
    else cells

/-- The `for (i = …; i < cells.length; i += 1) { if (cells[i] !==
CONTINUATION_CELL) break; cells[i] = ' ' }` loops inside `setCharInLines`:
blank a run of continuation cells starting at `i`. -/
def clearContRunFrom (cells : List Char) (i : Nat) : List Char :=
  clearContRunFromAux cells i (cells.length - i)

/-- `setCharInLines` from src/core/cells.ts: the central mutation primitive.
Out-of-range rows/columns are no-ops; overwriting either half of a wide pair
blanks the other half (and any dependent continuation run); a wide grapheme
that cannot fit its continuation within `width` is downgraded to a space. -/
def setCharInLines (lines : List Line) (row col : Int) (ch : Char) (width : Nat) : List Line :=
  if row < 0 ∨ (lines.length : Int) ≤ row then lines
  else if col < 0 ∨ (width : Int) ≤ col then lines
  else
    let r := row.toNat
    let c := col.toNat
    let src := lines.getD r []
    let cells := toCells src
    let ch := if ch ≠ CONTINUATION_CELL ∧ cellDisplayWidth ch = 2 ∧ width ≤ c + 1 then ' ' else ch
    let cells :=
      if cells.length ≤ c then
        cells ++ List.replicate (c - cells.length) ' ' ++ [ch]
      else
        let cells :=
          if ch ≠ CONTINUATION_CELL then
            if cells.getD c ' ' = CONTINUATION_CELL then
              let start := contRunStart cells c
              clearContRunFrom (cells.set start ' ') (start + 1)
            else
              clearContRunFrom cells (c + 1)
          else cells
        cells.set c ch
    let cells :=
      if ch ≠ CONTINUATION_CELL ∧ cellDisplayWidth ch = 2 ∧ c + 1 < width then
        let cells :=
          if cells.length ≤ c + 1 then cells ++ List.replicate (c + 2 - cells.length) ' '
          else cells
        let cells :=
          if cells.getD (c + 1) ' ' = CONTINUATION_CELL then
            let start := contRunStart cells (c + 1)
            clearContRunFrom (cells.set start ' ') (start + 1)
          else
            clearContRunFrom cells (c + 2)
        clearContRunFrom ((cells.set (c + 1) CONTINUATION_CELL)) (c + 2)
      else cells
    lines.set r (cells.take width)

/-- `clampInt` from src/store/editorStore.ts and the editor component
(integer model: the `Number.isFinite`/`Math.floor` steps are vacuous). -/
def clampInt (v lo hi : Int) : Int := max lo (min hi v)

/-- Cursor cell position (`Cell` in the editor component sources).
Coordinates are `Int` because the source never restricts them. -/
structure Cell where
  row : Int
  col : Int
deriving DecidableEq, Repr

/-- `BlockClipboard` from the editor component source. -/
structure BlockClipboard where
  width : Nat
  height : Nat
  lines : List Line
  origin : Cell
deriving DecidableEq, Repr

/-- `HistoryEntry` from src/store/editorStore.ts. -/
structure HistoryEntry where
  layers : List Layer
  activeLayerId : String
  width : Nat
  height : Nat
deriving DecidableEq, Repr

/-- The data fields of `EditorState` from src/store/editorStore.ts
(the function-valued action members live outside the state model). -/
structure EditorState where
  width : Nat
  height : Nat
  layers : List Layer
  activeLayerId : String
  cursor : Option Cell
  past : List HistoryEntry
  future : List HistoryEntry
deriving DecidableEq, Repr

/-- `cloneLayers` from src/store/editorStore.ts: deep clone for history. -/
def cloneLayers (layers : List Layer) : List Layer :=
  layers.map fun l => { l with buffer := { l.buffer with lines := l.buffer.lines } }

/-- `historyLimitForSize` from src/store/editorStore.ts. -/
def historyLimitForSize (width height : Nat) : Nat :=
  let cells := width * height
  if cells ≤ 100 * 100 then 200
  else if cells ≤ 300 * 300 then 100
  else if cells ≤ 1000 * 1000 then 50
  else 20

/-- The history-entry literal built inside `appendPast`/`prependFuture`. -/
def snapshotOf (s : EditorState) : HistoryEntry :=
  { layers := cloneLayers s.layers
    activeLayerId := s.activeLayerId
    width := s.width
    height := s.height }

/-- `appendPast` from src/store/editorStore.ts: push a deep-cloned snapshot,
dropping the oldest entries beyond `limit`. -/
def appendPast (past : List HistoryEntry) (current : EditorState) (limit : Nat) : List HistoryEntry :=
  let entry := snapshotOf current
  let next := past ++ [entry]
  if next.length ≤ limit then next else next.drop (next.length - limit)

/-- `prependFuture` from src/store/editorStore.ts: push a deep-cloned
snapshot at the front, truncating beyond `limit`. -/
def prependFuture (future : List HistoryEntry) (current : EditorState) (limit : Nat) : List HistoryEntry :=
  let entry := snapshotOf current
  let next := entry :: future
  if next.length ≤ limit then next else next.take limit

/-- `normalizeTextToBuffer` from src/store/editorStore.ts. -/
def normalizeTextToBuffer (text : List Char) (width height : Nat) : TextBuffer :=
  let normalized := replaceCrLf text
  let rawLines := normalized.splitOn '\n'
  let lines := (List.range height).map fun i => sliceCells (rawLines.getD i []) width
  { width := width, height := height, lines := lines }

/-- The `layers.find((l) => l.id === activeLayerId)` lookup used by the
store actions. -/
def findActiveLayer (s : EditorState) : Option Layer :=
  s.layers.find? fun l => l.id == s.activeLayerId

/-- Body of the `set` callback of `commitBuffer` (the unlocked path). -/
def commitBufferApply (s : EditorState) (nextBuffer : TextBuffer) : EditorState :=
  let nextLayers := s.layers.map fun l =>
    if l.id == s.activeLayerId then { l with buffer := nextBuffer } else l
  let limit := historyLimitForSize s.width s.height
  { s with layers := nextLayers, past := appendPast s.past s limit, future := [], cursor := none }

/-- `commitBuffer` from src/store/editorStore.ts: a locked active layer
returns before any state change. -/
def commitBuffer (s : EditorState) (nextBuffer : TextBuffer) : EditorState :=
  match findActiveLayer s with
  | some l => if l.locked then s else commitBufferApply s nextBuffer
  | none => commitBufferApply s nextBuffer

/-- Body of the `set` callback of `setBufferFromText` (the unlocked path). -/
def setBufferFromTextApply (s : EditorState) (text : List Char) : EditorState :=
  let nextBuffer := normalizeTextToBuffer text s.width s.height
  let nextLayers := s.layers.map fun l =>
    if l.id == s.activeLayerId then { l with buffer := nextBuffer } else l
  let limit := historyLimitForSize s.width s.height
  { s with layers := nextLayers, past := appendPast s.past s limit, future := [] }

/-- `setBufferFromText` from src/store/editorStore.ts: a locked active
layer returns before any state change. -/
def setBufferFromText (s : EditorState) (text : List Char) : EditorState :=
  match findActiveLayer s with
  | some l => if l.locked then s else setBufferFromTextApply s text
  | none => setBufferFromTextApply s text

/-- `undo` from src/store/editorStore.ts. -/
def undo (s : EditorState) : EditorState :=
  match s.past.getLast? with
  | none => s
  | some last =>
    let limit := historyLimitForSize s.width s.height
    { s with
      past := s.past.dropLast
      future := prependFuture s.future s limit
      layers := cloneLayers last.layers
      activeLayerId := last.activeLayerId
      width := last.width
      height := last.height }

/-- `lines[row] ?? ''` for a possibly out-of-range `Int` row index. -/
def lineAtI (lines : List Line) (row : Int) : Line :=
  if 0 ≤ row ∧ row < (lines.length : Int) then lines.getD row.toNat [] else []

/-- `getCellAt` applied to a possibly negative index: the source guard
`if (!(index >= 0)) return ' '`. -/
def getCellAtI (line : Line) (i : Int) : Char :=
  if i < 0 then ' ' else getCellAt line i.toNat

/-- Drawing glyph style (`DrawStyle` in the editor component source). -/
inductive DrawStyle where
  | ascii
  | unicode
deriving DecidableEq, Repr

/-- The glyphs of `styleChars` used by `drawRect` (the arrowhead and elbow
glyphs of the source record serve only the line/arrow tools, which are not
embedded here). -/
structure StyleChars where
  h : Char
  v : Char
  tl : Char
  tr : Char
  bl : Char
  br : Char
deriving DecidableEq, Repr

/-- `styleChars` from the editor component source. -/
def styleChars : DrawStyle → StyleChars
  | DrawStyle.unicode => { h := '─', v := '│', tl := '┌', tr := '┐', bl := '└', br := '┘' }
  | DrawStyle.ascii => { h := '-', v := '|', tl := '+', tr := '+', bl := '+', br := '+' }

/-- Body of the column loop of `pasteRectIntoBuffer`: one clipboard cell
write, skipped when the target falls outside the buffer bounds. -/
def pasteStepCol (base : TextBuffer) (atCell : Cell) (rowCells : List Char) (r : Nat)
    (lines : List Line) (c : Nat) : List Line :=
  let row := atCell.row + (r : Int)
  let col := atCell.col + (c : Int)
  if row < 0 ∨ (base.height : Int) ≤ row then lines
  else if col < 0 ∨ (base.width : Int) ≤ col then lines
  else setCharInLines lines row col (rowCells.getD c ' ') base.width

/-- Body of the row loop of `pasteRectIntoBuffer`. -/
def pasteStepRow (base : TextBuffer) (atCell : Cell) (clip : BlockClipboard)
    (lines : List Line) (r : Nat) : List Line :=
  let rowCells := toCells (clip.lines.getD r [])
  (List.range clip.width).foldl (pasteStepCol base atCell rowCells r) lines

/-- `pasteRectIntoBuffer` from the editor component source: write the
clipboard block cell by cell at `atCell`, skipping out-of-bounds targets. -/
def pasteRectIntoBuffer (base : TextBuffer) (atCell : Cell) (clip : Option BlockClipboard) : TextBuffer :=
  match clip with
  | none => base
  | some clip =>
    let lines := cloneLines base.lines base.height
    let lines := (List.range clip.height).foldl (pasteStepRow base atCell clip) lines
    { base with lines := lines }

/-- `drawHorizontal` from the editor component source. -/
def drawHorizontal (lines : List Line) (row : Int) (c1 c2 : Int) (width : Nat) (ch : Char) : List Line :=
  let lo := max 0 (min c1 c2)
  let hi := min ((width : Int) - 1) (max c1 c2)
  (List.range (hi + 1 - lo).toNat).foldl
    (fun lines i => setCharInLines lines row (lo + i) ch width) lines

/-- `drawVertical` from the editor component source. -/
def drawVertical (lines : List Line) (col : Int) (r1 r2 : Int) (width : Nat) (ch : Char) : List Line :=
  let lo := max 0 (min r1 r2)
  let hi := min ((lines.length : Int) - 1) (max r1 r2)
  (List.range (hi + 1 - lo).toNat).foldl
    (fun lines i => setCharInLines lines (lo + i) col ch width) lines

/-- `drawRect` from the editor component source: degenerate point/row/column
cases, else four edges (exclusive of corners) and then the corner glyphs. -/
def drawRect (base : TextBuffer) (a b : Cell) (style : DrawStyle) : TextBuffer :=
  let chars := styleChars style
  let x1 := min a.col b.col
  let x2 := max a.col b.col
  let y1 := min a.row b.row
  let y2 := max a.row b.row
  let lines := cloneLines base.lines base.height
  if x1 = x2 ∧ y1 = y2 then
    { base with lines := setCharInLines lines y1 x1 chars.tl base.width }
  else if y1 = y2 then
    let lines := drawHorizontal lines y1 x1 x2 base.width chars.h
    let lines := setCharInLines lines y1 x1 chars.tl base.width
    let lines := setCharInLines lines y1 x2 chars.tr base.width
    { base with lines := lines }
  else if x1 = x2 then
    let lines := drawVertical lines x1 y1 y2 base.width chars.v
    let lines := setCharInLines lines y1 x1 chars.tl base.width
    let lines := setCharInLines lines y2 x1 chars.bl base.width
    { base with lines := lines }
  else
    let lines := drawHorizontal lines y1 (x1 + 1) (x2 - 1) base.width chars.h
    let lines := drawHorizontal lines y2 (x1 + 1) (x2 - 1) base.width chars.h
    let lines := drawVertical lines x1 (y1 + 1) (y2 - 1) base.width chars.v
    let lines := drawVertical lines x2 (y1 + 1) (y2 - 1) base.width chars.v
    let lines := setCharInLines lines y1 x1 chars.tl base.width
    let lines := setCharInLines lines y1 x2 chars.tr base.width
    let lines := setCharInLines lines y2 x1 chars.bl base.width
    let lines := setCharInLines lines y2 x2 chars.br base.width
    { base with lines := lines }

/-- `snapColToCellStart` from the editor component source, inner loop:
walk left while the cell at the column is a continuation sentinel. -/
def snapColToCellStartAux (line : Line) : Nat → Nat
  | 0 => 0
  | c + 1 =>
    if getCellAt line (c + 1) = CONTINUATION_CELL then snapColToCellStartAux line c else c + 1

/-- `snapColToCellStart` from the editor component source. -/
def snapColToCellStart (line : Line) (col : Int) (width : Nat) : Nat :=
  snapColToCellStartAux line (clampInt col 0 (max 0 ((width : Int) - 1))).toNat

/-- Loop of `clearContinuationRight`, re-reading the mutated row each step;
`k` counts the remaining columns up to `width`. -/
def clearContRightAux (row : Int) (width : Nat) (lines : List Line) (c : Int) (k : Nat) : List Line :=
  match k with
  | 0 => lines
  | k + 1 =>
    if getCellAtI (lineAtI lines row) c = CONTINUATION_CELL then
      clearContRightAux row width (setCharInLines lines row c ' ' width) (c + 1) k
    else lines

/-- `clearContinuationRight` from the editor component source: blank the
continuation run strictly right of `col`. -/
def clearContinuationRight (lines : List Line) (row col : Int) (width : Nat) : List Line :=
  clearContRightAux row width lines (col + 1) ((width : Int) - (col + 1)).toNat

/-- `isWall` from `findEnclosingBoxBounds`. -/
def isWall (ch : Char) : Bool :=
  ch == '|' || ch == '│' || ch == '+' || ch == '┌' || ch == '┐' || ch == '└' || ch == '┘'

/-- `isH` from `findEnclosingBoxBounds`. -/
def isH (ch : Char) : Bool := ch == '-' || ch == '─'

/-- `isTopLeft` from `findEnclosingBoxBounds`. -/
def isTopLeftGlyph (ch : Char) : Bool := ch == '+' || ch == '┌'

/-- `isTopRight` from `findEnclosingBoxBounds`. -/
def isTopRightGlyph (ch : Char) : Bool := ch == '+' || ch == '┐'

/-- `isBottomLeft` from `findEnclosingBoxBounds`. -/
def isBottomLeftGlyph (ch : Char) : Bool := ch == '+' || ch == '└'

/-- `isBottomRight` from `findEnclosingBoxBounds`. -/
def isBottomRightGlyph (ch : Char) : Bool := ch == '+' || ch == '┘'

/-- `getCharAt` from the editor component source: cell content at a grid
coordinate with continuation sentinels rendered as spaces. -/
def getCharAt (lines : List Line) (row col : Nat) : Char :=
  let ch := getCellAt (lines.getD row []) col
  if ch = CONTINUATION_CELL then ' ' else ch

/-- `scanWall(-1)` from `findEnclosingBoxBounds`: nearest wall glyph at or
left of the start column (the `c < width` loop guard holds at every call
site because the start column is clamped below `width`). -/
def scanWallLeft (lines : List Line) (row : Nat) : Nat → Option Nat
  | 0 => if isWall (getCharAt lines row 0) then some 0 else none
  | c + 1 =>
    if isWall (getCharAt lines row (c + 1)) then some (c + 1) else scanWallLeft lines row c

/-- Loop of `scanWall(1)` with `k` the remaining columns below `width`. -/
def scanWallRightAux (lines : List Line) (row : Nat) : Nat → Nat → Option Nat
  | _, 0 => none
  | c, k + 1 =>
    if isWall (getCharAt lines row c) then some c else scanWallRightAux lines row (c + 1) k

/-- `scanWall(1)` from `findEnclosingBoxBounds`: nearest wall glyph at or
right of the start column, bounded by `width`. -/
def scanWallRight (lines : List Line) (row : Nat) (width : Nat) (c : Nat) : Option Nat :=
  scanWallRightAux lines row c (width - c)

/-- `isTopBorderRow` from `findEnclosingBoxBounds`. -/
def isTopBorderRow (lines : List Line) (leftWall rightWall r : Nat) : Bool :=
  isTopLeftGlyph (getCharAt lines r leftWall) &&
  isTopRightGlyph (getCharAt lines r rightWall) &&
  ((List.range' (leftWall + 1) (rightWall - 1 - leftWall)).all fun c => isH (getCharAt lines r c))

/-- `isBottomBorderRow` from `findEnclosingBoxBounds`. -/
def isBottomBorderRow (lines : List Line) (leftWall rightWall r : Nat) : Bool :=
  isBottomLeftGlyph (getCharAt lines r leftWall) &&
  isBottomRightGlyph (getCharAt lines r rightWall) &&
  ((List.range' (leftWall + 1) (rightWall - 1 - leftWall)).all fun c => isH (getCharAt lines r c))

/-- The upward top-border search of `findEnclosingBoxBounds`. -/
def findTopBorder (lines : List Line) (leftWall rightWall : Nat) : Nat → Option Nat
  | 0 => if isTopBorderRow lines leftWall rightWall 0 then some 0 else none
  | r + 1 =>
    if isTopBorderRow lines leftWall rightWall (r + 1) then some (r + 1)
    else findTopBorder lines leftWall rightWall r

/-- Loop of the downward bottom-border search, with `k` the remaining rows
below `height`. -/
def findBottomBorderAux (lines : List Line) (leftWall rightWall : Nat) : Nat → Nat → Option Nat
  | _, 0 => none
  | r, k + 1 =>
    if isBottomBorderRow lines leftWall rightWall r then some r
    else findBottomBorderAux lines leftWall rightWall (r + 1) k

/-- The downward bottom-border search of `findEnclosingBoxBounds`. -/
def findBottomBorder (lines : List Line) (leftWall rightWall height : Nat) (r : Nat) : Option Nat :=
  findBottomBorderAux lines leftWall rightWall r (height - r)

/-- `BoxBounds` from the editor component source.  All fields are
nonnegative whenever the record is returned, so they are modelled as `Nat`
(the `bottom - 1` underflow for `bottom = 0` coincides with the source:
both sides then fail the `topInner > bottomInner` check). -/
structure BoxBounds where
  left : Nat
  right : Nat
  top : Nat
  bottom : Nat
  leftInner : Nat
  rightInner : Nat
  topInner : Nat
  bottomInner : Nat
deriving DecidableEq, Repr

/-- `findEnclosingBoxBounds` from the editor component source. -/
def findEnclosingBoxBounds (lines : List Line) (width height : Nat) (atCell : Cell) : Option BoxBounds :=
  let row := (clampInt atCell.row 0 ((height : Int) - 1)).toNat
  let col := (clampInt atCell.col 0 ((width : Int) - 1)).toNat
  if width = 0 then none
  else
    match scanWallLeft lines row col, scanWallRight lines row width col with
    | some leftWall, some rightWall =>
      if rightWall - leftWall < 2 ∨ rightWall ≤ leftWall then none
      else
        match findTopBorder lines leftWall rightWall row,
              findBottomBorder lines leftWall rightWall height row with
        | some top, some bottom =>
          let bounds : BoxBounds :=
            { left := leftWall, right := rightWall, top := top, bottom := bottom
              leftInner := leftWall + 1, rightInner := rightWall - 1
              topInner := top + 1, bottomInner := bottom - 1 }
          if bounds.rightInner < bounds.leftInner then none
          else if bounds.bottomInner < bounds.topInner ∨ bottom < top + 2 then none
          else if row < bounds.topInner ∨ bounds.bottomInner < row then none
          else if col < bounds.leftInner ∨ bounds.rightInner < col then none
          else some bounds
        | _, _ => none
    | _, _ => none

/-- Loop state of `overwriteTextIntoBuffer`: the mutated lines, the write
position, and whether the loop has hit a `break`. -/
structure OverwriteState where
  lines : List Line
  row : Int
  col : Int
  stopped : Bool
deriving DecidableEq, Repr

/-- One iteration of the `for (const ch of …)` loop of
`overwriteTextIntoBuffer`, transcribed branch for branch. -/
def overwriteStep (width height : Nat) (bounds : Option BoxBounds) (wrapCol : Int)
    (st : OverwriteState) (ch : Char) : OverwriteState :=
  if st.stopped then st
  else if ch = '\r' then st
  else if ch = '\n' then
    let row := st.row + 1
    if (height : Int) ≤ row then { st with row := row, stopped := true }
    else
      match bounds with
      | some b =>
        if (b.bottomInner : Int) < row then { st with row := row, stopped := true }
        else { st with row := row, col := clampInt st.col b.leftInner b.rightInner }
      | none => { st with row := row, col := clampInt st.col 0 ((width : Int) - 1) }
  else
    let s1 : OverwriteState :=
      match bounds with
      | some b =>
        if st.row < (b.topInner : Int) ∨ (b.bottomInner : Int) < st.row then
          { st with stopped := true }
        else
          let col := if st.col < (b.leftInner : Int) then (b.leftInner : Int) else st.col
          if (b.rightInner : Int) < col then
            if (b.bottomInner : Int) ≤ st.row then { st with col := col, stopped := true }
            else
              let row := st.row + 1
              if (height : Int) ≤ row then { st with row := row, col := col, stopped := true }
              else { st with row := row, col := wrapCol }
          else { st with col := col }
      | none =>
        if (width : Int) ≤ st.col then
          let row := st.row + 1
          if (height : Int) ≤ row then { st with row := row, stopped := true }
          else { st with row := row, col := 0 }
        else st
    if s1.stopped then s1
    else
      let s1 := { s1 with col := (snapColToCellStart (lineAtI s1.lines s1.row) s1.col width : Int) }
      let writeWidth : Nat := if ch = CONTINUATION_CELL then 1 else cellDisplayWidth ch
      let maxCol : Int := match bounds with | some b => b.rightInner | none => (width : Int) - 1
      let s2 : OverwriteState :=
        if writeWidth = 2 ∧ maxCol < s1.col + 1 then
          match bounds with
          | some b =>
            if (b.bottomInner : Int) ≤ s1.row then { s1 with stopped := true }
            else
              let row := s1.row + 1
              if (height : Int) ≤ row then { s1 with row := row, stopped := true }
              else
                { s1 with row := row
                          col := (snapColToCellStart (lineAtI s1.lines row) wrapCol width : Int) }
          | none =>
            let row := s1.row + 1
            if (height : Int) ≤ row then { s1 with row := row, stopped := true }
            else
              { s1 with row := row
                        col := (snapColToCellStart (lineAtI s1.lines row) 0 width : Int) }
        else s1
      if s2.stopped then s2
      else
        let writeCh := if writeWidth = 2 ∧ maxCol < s2.col + 1 then ' ' else ch
        let writeWidth := if writeWidth = 2 ∧ maxCol < s2.col + 1 then 1 else writeWidth
        let lines := clearContinuationRight s2.lines s2.row s2.col width
        let lines := setCharInLines lines s2.row s2.col writeCh width
        let col := s2.col + writeWidth
        match bounds with
        | some b =>
          if (b.rightInner : Int) < col then
            if (b.bottomInner : Int) ≤ s2.row then
              { lines := lines, row := s2.row, col := b.rightInner, stopped := true }
            else
              let row := s2.row + 1
              if (height : Int) ≤ row then { lines := lines, row := row, col := col, stopped := true }
              else { lines := lines, row := row, col := wrapCol, stopped := false }
          else { lines := lines, row := s2.row, col := col, stopped := false }
        | none =>
          if (width : Int) ≤ col then
            let row := s2.row + 1
            if (height : Int) ≤ row then { lines := lines, row := row, col := col, stopped := true }
            else { lines := lines, row := row, col := 0, stopped := false }
          else { lines := lines, row := s2.row, col := col, stopped := false }

/-- `overwriteTextIntoBuffer` from the editor component source: type text
into the grid, wrapping inside the enclosing box if one is found, else at
the buffer edge; returns the new buffer and the clamped cursor. -/
def overwriteTextIntoBuffer (base : TextBuffer) (atCell : Cell) (text : List Char) :
    TextBuffer × Cell :=
  let lines := cloneLines base.lines base.height
  let row := clampInt atCell.row 0 ((base.height : Int) - 1)
  let col0 := clampInt atCell.col 0 ((base.width : Int) - 1)
  let col : Int := snapColToCellStart (lineAtI lines row) col0 base.width
  let bounds := findEnclosingBoxBounds lines base.width base.height { row := row, col := col }
  let wrapCol : Int := match bounds with | some b => b.leftInner | none => 0
  let st := (toCells (replaceCrLf text)).foldl
    (overwriteStep base.width base.height bounds wrapCol)
    { lines := lines, row := row, col := col, stopped := false }
  let cursorRow := match bounds with
    | some b => clampInt st.row b.topInner b.bottomInner
    | none => clampInt st.row 0 ((base.height : Int) - 1)
  let cursorCol := match bounds with
    | some b => clampInt st.col b.leftInner b.rightInner
    | none => clampInt st.col 0 ((base.width : Int) - 1)
  let cursorLine := lineAtI st.lines cursorRow
  ({ base with lines := st.lines },
   { row := cursorRow, col := (snapColToCellStart cursorLine cursorCol base.width : Int) })

/-- Loop of `displayLine.indexOf(q, idx)` with `k` the remaining start
positions (the scan stops once `i + q.length` exceeds the line length). -/
def indexOfFromAux (l q : List Char) : Nat → Nat → Option Nat
  | _, 0 => none
  | i, k + 1 =>
    if i + q.length ≤ l.length then
      if (l.drop i).take q.length = q then some i else indexOfFromAux l q (i + 1) k
    else none

/-- `displayLine.indexOf(q, idx)` from `computeMatches`: the least match
position at or after `idx`. -/
def indexOfFrom (l q : List Char) (i : Nat) : Option Nat :=
  indexOfFromAux l q i (l.length + 1 - i)

/-- The `for (;;)` scan of one row in `computeMatches` with `k` the
remaining iterations (each iteration advances the start index by at least
one, so `line.length + 1` iterations always suffice). -/
def matchScanRowAux (line q : List Char) : Nat → Nat → List Nat
  | _, 0 => []
  | idx, k + 1 =>
    match indexOfFrom line q idx with
    | none => []
    | some found => found :: matchScanRowAux line q (found + max 1 q.length) k

/-- The `for (;;)` scan of one row in `computeMatches`: record each found
index, then continue past it by `max(1, q.length)`. -/
def matchScanRow (line q : List Char) (idx : Nat) : List Nat :=
  matchScanRowAux line q idx (line.length + 1 - idx)

/-- `computeMatches` from the editor component source: empty queries
short-circuit; otherwise scan each row's rendered external text. -/
def computeMatches (buffer : TextBuffer) (query : List Char) : List Cell :=
  if query = [] then []
  else
    (List.range buffer.height).flatMap fun row =>
      (matchScanRow (toDisplayText (buffer.lines.getD row [])) query 0).map fun (col : Nat) =>
        { row := (row : Int), col := (col : Int) }

/-- The clip-cell accumulation loop of `insertFigureFromClipboard`
(src/core/figureInsert.ts): push cells while the running display width
fits `clipWidth`, then pad with spaces up to `clipWidth`. -/
def insertFigureClipLoop (clipWidth : Nat) : List Char → Nat → List Char
  | [], ccw => List.replicate (clipWidth - ccw) ' '
  | cell :: rest, ccw =>
    let w := cellDisplayWidth cell
    if clipWidth < ccw + w then List.replicate (clipWidth - ccw) ' '
    else cell :: insertFigureClipLoop clipWidth rest (ccw + w)

/-- One inserted row of `insertFigureFromClipboard`: left padding, clip
cells, space fill, and the truncation-integrity fix at `nextWidth`. -/
def insertFigureRow (insertCol clipWidth nextWidth : Nat) (clipLine : List Char) : Line :=
  let newLineCells := List.replicate insertCol ' ' ++ insertFigureClipLoop clipWidth (toCells clipLine) 0
  if nextWidth < newLineCells.length then
    let truncated := newLineCells.take nextWidth
    match truncated.getLast? with
    | some lastChar =>
      if cellDisplayWidth lastChar = 2 then truncated.set (truncated.length - 1) ' '
      else truncated
    | none => truncated
  else newLineCells

/-- `insertFigureFromClipboard` from src/core/figureInsert.ts (default
`maxHeight`): shift rows below the insertion down by the clip height and
fill the gap with the clipboard content. -/
def insertFigureFromClipboard (base : TextBuffer) (atCell : Cell) (clip : BlockClipboard) :
    TextBuffer × Cell :=
  let maxHeight : Nat := 2000
  let insertRow := (clampInt atCell.row 0 base.height).toNat
  let insertCol := (clampInt atCell.col 0 base.width).toNat
  let nextHeight := (clampInt (base.height + clip.height) 1 maxHeight).toNat
  let nextWidth := (clampInt (max base.width (insertCol + clip.width)) 1 2000).toNat
  let lines : List Line := List.replicate nextHeight []
  let lines := (List.range (min insertRow base.height)).foldl
    (fun ls r => ls.set r (base.lines.getD r [])) lines
  let lines := (List.range' insertRow (base.height - insertRow)).foldl
    (fun ls r =>
      if r + clip.height < nextHeight then ls.set (r + clip.height) (base.lines.getD r [])
      else ls) lines
  let lines := (List.range clip.height).foldl
    (fun ls r =>
      if insertRow + r < nextHeight then
        ls.set (insertRow + r) (insertFigureRow insertCol clip.width nextWidth (clip.lines.getD r []))
      else ls) lines
  let cursorAfter : Cell :=
    { row := clampInt (insertRow + clip.height) 0 ((nextHeight : Int) - 1)
      col := (insertCol : Int) }
  ({ width := nextWidth, height := nextHeight, lines := lines }, cursorAfter)

/-- Nonnegative part of the `while (start >= 0 && row[start] === CONT)
start -= 1` scan of `setCharInGrid` (the compositor source). -/
def headScanLeftNat (row : List Char) : Nat → Option Nat
  | 0 => if row.getD 0 ' ' = CONTINUATION_CELL then none else some 0
  | s + 1 =>
    if row.getD (s + 1) ' ' = CONTINUATION_CELL then headScanLeftNat row s else some (s + 1)

/-- The `while (start >= 0 && row[start] === CONT) start -= 1` scan of
`setCharInGrid`: the head position to blank, or `none` when the scan runs
past the row start. -/
def headScanLeft (row : List Char) (start : Int) : Option Nat :=
  if start < 0 then none else headScanLeftNat row start.toNat

/-- `setCharInGrid` from the compositor source. -/
def setCharInGrid (row : List Char) (col : Nat) (ch : Char) (width : Nat) : List Char :=
  if width ≤ col then row
  else
    let row :=
      if row.getD col ' ' = CONTINUATION_CELL then
        match headScanLeft row ((col : Int) - 1) with
        | some start => row.set start ' '
        | none => row
      else if cellDisplayWidth (row.getD col ' ') = 2 then
        if col + 1 < width ∧ row.getD (col + 1) ' ' = CONTINUATION_CELL then row.set (col + 1) ' '
        else row
      else row
    let row := row.set col ch
    if cellDisplayWidth ch = 2 then
      if col + 1 < width then
        let row :=
          if row.getD (col + 1) ' ' = CONTINUATION_CELL then row
          else if cellDisplayWidth (row.getD (col + 1) ' ') = 2 then
            if col + 2 < width ∧ row.getD (col + 2) ' ' = CONTINUATION_CELL then row.set (col + 2) ' '
            else row
          else row
        row.set (col + 1) CONTINUATION_CELL
      else row.set col ' '
    else row

/-- The cell walk of one layer row in `compositeBuffers`: spaces and
transparent sentinels are see-through, wide cells consume two output
columns and (via `skipOne`) the one explicit continuation source cell the
source advances past with `i += 1`. -/
def compositeWalk (width : Nat) : List Char → List Char → Nat → Bool → List Char
  | gridRow, [], _, _ => gridRow
  | gridRow, ch :: rest, col, skipOne =>
    if skipOne ∧ ch = CONTINUATION_CELL then compositeWalk width gridRow rest col false
    else if width ≤ col then gridRow
    else if ch = TRANSPARENT_CELL ∨ ch = ' ' then compositeWalk width gridRow rest (col + 1) false
    else if cellDisplayWidth ch = 2 then
      compositeWalk width (setCharInGrid gridRow col ch width) rest (col + 2) true
    else compositeWalk width (setCharInGrid gridRow col ch width) rest (col + 1) false

/-- `compositeBuffers` from the compositor source. -/
def compositeBuffers (layers : List Layer) (width height : Nat) : TextBuffer :=
  let grid : List (List Char) := List.replicate height (List.replicate width ' ')
  let grid := layers.foldl (fun grid layer =>
    if layer.visible = false then grid
    else (List.range height).foldl (fun grid r =>
      if layer.buffer.height ≤ r then grid
      else
        let line := layer.buffer.lines.getD r []
        let cells := toCells line
        grid.set r (compositeWalk width (grid.getD r []) cells 0 false)) grid) grid
  { width := width, height := height, lines := grid }

/-! Specification-side predicates and helpers used by the claim theorems. -/

/-- Claim predicate: a wide content cell (not the continuation sentinel,
display width 2). -/
def isContentWide (c : Char) : Bool :=
  !(c = CONTINUATION_CELL) && cellDisplayWidth c = 2

/-- Scan for `lineOk` with `prev` the preceding cell: a continuation cell
appears exactly after a wide content cell, and a wide content cell is never
the last cell of the row. -/
def lineOkFrom (prev : Char) : List Char → Bool
  | [] => !isContentWide prev
  | b :: rest => (decide (b = CONTINUATION_CELL) == isContentWide prev) && lineOkFrom b rest

/-- The wide-glyph pairing invariant of claim C1, per row: every
continuation cell immediately follows the one wide content cell it
completes, and every wide content cell is immediately followed by its
continuation cell. -/
def lineOk : List Char → Bool
  | [] => true
  | a :: rest => !(a = CONTINUATION_CELL) && lineOkFrom a rest

/-- Claim predicate: a row whose cells are all narrow content (no
continuation sentinels, no wide glyphs). -/
def narrowLine (l : Line) : Bool :=
  l.all fun c => !(c = CONTINUATION_CELL) && cellDisplayWidth c = 1

/-- Right-hand side of the amended claim C2: the newline-normalized input
with every continuation sentinel replaced by a space and a space appended
after every wide grapheme. -/
def roundTripRendered : List Char → List Char
  | [] => []
  | c :: rest =>
    if c = '\r' then roundTripRendered rest
    else if c = CONTINUATION_CELL then ' ' :: roundTripRendered rest
    else if cellDisplayWidth c = 2 then c :: ' ' :: roundTripRendered rest
    else c :: roundTripRendered rest

/-- Right-hand side of claim C4 for one row: transparent sentinels render
as blanks and the row is right-padded with spaces to the full width. -/
def compositeSpecRow (width : Nat) (l : Line) : Line :=
  (l.map fun c => if c = TRANSPARENT_CELL then ' ' else c) ++
    List.replicate (width - l.length) ' '

/-- What `setCharInLines` does to one narrow row at an in-range column
(before the final `slice(0, width)`): overwrite in place, padding with
spaces when the row is shorter than the column. -/
def setNarrowCell (l : Line) (c : Nat) (ch : Char) : Line :=
  if l.length ≤ c then l ++ List.replicate (c - l.length) ' ' ++ [ch] else l.set c ch

/-! Theorems. -/

/-- C1: the wide-glyph pairing invariant is the stated intent
(src/core/figureInsert.ts's own comments and §4.8 of the spec demand that
no dangling wide head survive a cut edge), but `insertFigureFromClipboard`
double-counts a wide pair captured with its continuation sentinel
(head contributes 2, the sentinel 1 more against `clip.width`), so the
continuation of a wide pair ending exactly at the clipboard width is
dropped: pasting the clipboard `['가', CONTINUATION]` (as `copyRect`
captures a 2-column-wide glyph) inserts the row `['가']` — a wide content
cell whose continuation is missing although column 1 is within the
2-column bounds, violating the invariant on a perfectly well-formed
buffer and clipboard. -/
theorem C1_insertFigureFromClipboard_drops_continuation :
    (insertFigureFromClipboard ⟨2, 1, [['가', CONTINUATION_CELL]]⟩ ⟨0, 0⟩
        ⟨2, 1, [['가', CONTINUATION_CELL]], ⟨0, 0⟩⟩).1.lines
      = [['가'], ['가', CONTINUATION_CELL]] ∧
    (insertFigureFromClipboard ⟨2, 1, [['가', CONTINUATION_CELL]]⟩ ⟨0, 0⟩
        ⟨2, 1, [['가', CONTINUATION_CELL]], ⟨0, 0⟩⟩).1.width = 2 ∧
    lineOk ['가', CONTINUATION_CELL] = true ∧
    isContentWide '가' = true ∧
    lineOk ['가'] = false := by
  decide

set_option maxRecDepth 40000 in
/-- C9: on an 80×24 blank buffer, `drawRect` from (0,0) to (2,4) in ascii
style renders row 0 as `+---+`, row 1 as `|   |`, row 2 as `+---+`, each
padded with blanks to the buffer width. -/
theorem C9_drawRect_ascii_scenario :
    toDisplayText (padCells ((drawRect ⟨80, 24, List.replicate 24 []⟩ ⟨0, 0⟩ ⟨2, 4⟩
        DrawStyle.ascii).lines.getD 0 []) 80) = "+---+".toList ++ List.replicate 75 ' ' ∧
    toDisplayText (padCells ((drawRect ⟨80, 24, List.replicate 24 []⟩ ⟨0, 0⟩ ⟨2, 4⟩
        DrawStyle.ascii).lines.getD 1 []) 80) = "|   |".toList ++ List.replicate 75 ' ' ∧
    toDisplayText (padCells ((drawRect ⟨80, 24, List.replicate 24 []⟩ ⟨0, 0⟩ ⟨2, 4⟩
        DrawStyle.ascii).lines.getD 2 []) 80) = "+---+".toList ++ List.replicate 75 ' ' ∧
    (drawRect ⟨80, 24, List.replicate 24 []⟩ ⟨0, 0⟩ ⟨2, 4⟩ DrawStyle.ascii).width = 80 ∧
    (drawRect ⟨80, 24, List.replicate 24 []⟩ ⟨0, 0⟩ ⟨2, 4⟩ DrawStyle.ascii).height = 24 := by
  decide

/-- C2 counterexample: the round trip is not the identity on wide
graphemes — `toDisplayText (toInternalText "가")` is `"가 "` (the inserted
continuation sentinel renders as a space), not `"가"`. -/
theorem C2_counterexample_wide_grapheme :
    toDisplayText (toInternalText ['가']) = ['가', ' '] ∧
    toDisplayText (toInternalText ['가']) ≠ ['가'] := by
  decide

/-- C8 counterexample: an in-bounds clipboard cell is not always written
verbatim — pasting the wide pair `['가', CONTINUATION]` at column 1 of a
2-column blank buffer puts a space, not `'가'`, at the in-bounds target
(0,1), because the continuation column would fall outside the buffer and
`setCharInLines` downgrades the wide glyph. -/
theorem C8_counterexample_wide_downgrade :
    (pasteRectIntoBuffer ⟨2, 1, [[]]⟩ ⟨0, 1⟩
        (some ⟨2, 1, [['가', CONTINUATION_CELL]], ⟨0, 0⟩⟩)).lines = [[' ', ' ']] ∧
    ((pasteRectIntoBuffer ⟨2, 1, [[]]⟩ ⟨0, 1⟩
        (some ⟨2, 1, [['가', CONTINUATION_CELL]], ⟨0, 0⟩⟩)).lines.getD 0 []).getD 1 ' '
      = ' ' ∧
    (([['가', CONTINUATION_CELL]] : List Line).getD 0 []).getD 0 ' ' = '가' ∧
    (' ' : Char) ≠ '가' := by
  decide

/-- C3 counterexample: with a wide glyph straddling the inner-left
boundary of an inner row, typed text escapes the box — wrapping to the
inner-left column of row 2 snaps onto the continuation cell's head at
column 0 (the border column), overwriting a cell outside the box's inner
region (`findEnclosingBoxBounds` returns inner region rows 1–2, columns
1–2, yet cell (2,0) changes from `'가'` to `'z'`). -/
theorem C3_counterexample_escapes_inner_region :
    findEnclosingBoxBounds
        ["+--+".toList, "|ab|".toList, ['가', CONTINUATION_CELL, 'c', 'd'], "+--+".toList]
        4 4 ⟨1, 1⟩
      = some ⟨0, 3, 0, 3, 1, 2, 1, 2⟩ ∧
    ((overwriteTextIntoBuffer
        ⟨4, 4, ["+--+".toList, "|ab|".toList, ['가', CONTINUATION_CELL, 'c', 'd'], "+--+".toList]⟩
        ⟨1, 1⟩ "xyz".toList).1.lines.getD 2 []).getD 0 ' ' = 'z' ∧
    ((["+--+".toList, "|ab|".toList, ['가', CONTINUATION_CELL, 'c', 'd'], "+--+".toList]
        : List Line).getD 2 []).getD 0 ' ' = '가' ∧
    ('z' : Char) ≠ '가' := by
  decide

/-- Helper: `appendPast` is exactly "append the snapshot, keep the most
recent `limit` entries". -/
theorem appendPast_eq_drop (past : List HistoryEntry) (cur : EditorState) (limit : Nat) :
    appendPast past cur limit = (past ++ [snapshotOf cur]).drop (past.length + 1 - limit) := by
  unfold appendPast
  by_cases h : past.length + 1 ≤ limit
  · rw [if_pos (by simpa using h)]
    rw [Nat.sub_eq_zero_of_le h, List.drop_zero]
  · rw [if_neg (by simpa using h)]
    simp

/-- Helper: `prependFuture` is exactly "cons the snapshot, keep the first
`limit` entries". -/
theorem prependFuture_eq_take (future : List HistoryEntry) (cur : EditorState) (limit : Nat) :
    prependFuture future cur limit = (snapshotOf cur :: future).take limit := by
  unfold prependFuture
  by_cases h : (snapshotOf cur :: future).length ≤ limit
  · simp [h, List.take_of_length_le h]
  · simp [h]

/-- Helper: one `appendPast` keeps the stack within `limit` whenever it
was within `limit` before. -/
theorem appendPast_length_le (past : List HistoryEntry) (cur : EditorState) (limit : Nat)
    (h : past.length ≤ limit) : (appendPast past cur limit).length ≤ limit := by
  rw [appendPast_eq_drop]
  simp only [List.length_drop, List.length_append, List.length_singleton]
  omega

/-- C5: `historyLimitForSize` returns 200 / 100 / 50 / 20 on the stated
cell-count bands, `appendPast` keeps exactly the most recent `limit`
entries, and a past stack grown from empty by any sequence of commits
never exceeds the limit. -/
theorem C5_history_limit_bound :
    (∀ w h : Nat,
      (w * h ≤ 100 * 100 → historyLimitForSize w h = 200) ∧
      (100 * 100 < w * h → w * h ≤ 300 * 300 → historyLimitForSize w h = 100) ∧
      (300 * 300 < w * h → w * h ≤ 1000 * 1000 → historyLimitForSize w h = 50) ∧
      (1000 * 1000 < w * h → historyLimitForSize w h = 20)) ∧
    (∀ (past : List HistoryEntry) (cur : EditorState) (limit : Nat),
      appendPast past cur limit = (past ++ [snapshotOf cur]).drop (past.length + 1 - limit)) ∧
    (∀ (commits : List EditorState) (limit : Nat),
      (commits.foldl (fun p cur => appendPast p cur limit) []).length ≤ limit) := by
  refine ⟨?_, appendPast_eq_drop, ?_⟩
  · intro w h
    refine ⟨fun h1 => ?_, fun h1 h2 => ?_, fun h1 h2 => ?_, fun h1 => ?_⟩ <;>
      (simp only [historyLimitForSize]; split_ifs <;> omega)
  · intro commits limit
    suffices H : ∀ (p : List HistoryEntry), p.length ≤ limit →
        (commits.foldl (fun p cur => appendPast p cur limit) p).length ≤ limit by
      exact H [] (by simp)
    induction commits with
    | nil => intro p hp; simpa using hp
    | cons c cs ih =>
      intro p hp
      exact ih _ (appendPast_length_le p c limit hp)

/-- C5 witness: concrete evaluations of the limit bands and the bound. -/
theorem C5_history_limit_bound_witness :
    historyLimitForSize 80 24 = 200 ∧ historyLimitForSize 300 300 = 100 ∧
    historyLimitForSize 1000 1000 = 50 ∧ historyLimitForSize 2000 2000 = 20 ∧
    ∀ limit : Nat, (([] : List EditorState).foldl
      (fun p cur => appendPast p cur limit) []).length ≤ limit := by
  refine ⟨C5_history_limit_bound.1 80 24 |>.1 (by norm_num),
          C5_history_limit_bound.1 300 300 |>.2.1 (by norm_num) (by norm_num),
          C5_history_limit_bound.1 1000 1000 |>.2.2.1 (by norm_num) (by norm_num),
          C5_history_limit_bound.1 2000 2000 |>.2.2.2 (by norm_num),
          fun limit => C5_history_limit_bound.2.2 [] limit⟩

/-- C6: with a locked active layer, `commitBuffer` and `setBufferFromText`
return the state unchanged — layers, past, and future included; no
snapshot is pushed. -/
theorem C6_locked_layer_mutations_noop (s : EditorState) (L : Layer)
    (hfind : findActiveLayer s = some L) (hlock : L.locked = true)
    (b : TextBuffer) (t : List Char) :
    commitBuffer s b = s ∧ setBufferFromText s t = s := by
  constructor
  · unfold commitBuffer
    rw [hfind]
    simp [hlock]
  · unfold setBufferFromText
    rw [hfind]
    simp [hlock]

/-- C6 witness: a concrete locked single-layer state is left unchanged. -/
theorem C6_locked_layer_mutations_noop_witness :
    commitBuffer
        ⟨2, 1, [⟨"layer-1", "Background", true, true, ⟨2, 1, [[]]⟩⟩], "layer-1",
          none, [], []⟩
        ⟨2, 1, [['a']]⟩
      = ⟨2, 1, [⟨"layer-1", "Background", true, true, ⟨2, 1, [[]]⟩⟩], "layer-1",
          none, [], []⟩ ∧
    setBufferFromText
        ⟨2, 1, [⟨"layer-1", "Background", true, true, ⟨2, 1, [[]]⟩⟩], "layer-1",
          none, [], []⟩
        "xy".toList
      = ⟨2, 1, [⟨"layer-1", "Background", true, true, ⟨2, 1, [[]]⟩⟩], "layer-1",
          none, [], []⟩ :=
  C6_locked_layer_mutations_noop _ ⟨"layer-1", "Background", true, true, ⟨2, 1, [[]]⟩⟩
    (by decide) (by decide) _ _

/-- C10: every `undo` rebuilds the future stack as the current snapshot
consed onto the old future, truncated to `historyLimitForSize` of the
current dimensions — so the redo stack is bounded by the same limit the
spec states only for the past stack, and consecutive undos beyond the
limit discard the oldest redo entries. -/
theorem C10_undo_truncates_future (s : EditorState) (h : s.past ≠ []) :
    (undo s).future
      = (snapshotOf s :: s.future).take (historyLimitForSize s.width s.height) ∧
    (undo s).future.length ≤ historyLimitForSize s.width s.height := by
  match hlast : s.past.getLast? with
  | none =>
    exact absurd (by simpa using congrArg (fun o => o.isNone) hlast) (by simpa [List.getLast?_eq_none_iff] using h)
  | some last =>
  constructor
  · unfold undo
    rw [hlast]
    simp [prependFuture_eq_take]
  · unfold undo
    rw [hlast]
    simp only [prependFuture_eq_take]
    simp

/-- C10 witness: one undo on a concrete state with a nonempty past. -/
theorem C10_undo_truncates_future_witness :
    (undo ⟨1, 1, [⟨"layer-1", "Background", true, false, ⟨1, 1, [[]]⟩⟩], "layer-1",
        none, [⟨[], "layer-1", 1, 1⟩], []⟩).future
      = (snapshotOf ⟨1, 1, [⟨"layer-1", "Background", true, false, ⟨1, 1, [[]]⟩⟩], "layer-1",
          none, [⟨[], "layer-1", 1, 1⟩], []⟩ :: []).take (historyLimitForSize 1 1) :=
  (C10_undo_truncates_future _ (by decide)).1

/-- Helper: rendering the internalized cells of any text yields
`roundTripRendered` of that text. -/
theorem toDisplayText_internalizeCells (s : List Char) :
    toDisplayText (internalizeCells s) = roundTripRendered s := by
  induction s with
  | nil => rfl
  | cons c rest ih =>
    by_cases h1 : c = '\r'
    · simp [internalizeCells, roundTripRendered, h1, ih]
    · by_cases h2 : c = '\n'
      · subst h2
        simp [internalizeCells, roundTripRendered, h1, toDisplayText,
          (by decide : ¬(('\n' : Char) = CONTINUATION_CELL)),
          (by decide : ¬(cellDisplayWidth '\n' = 2))]
        simpa [toDisplayText] using ih
      · by_cases h3 : c = CONTINUATION_CELL
        · subst h3
          simp [internalizeCells, roundTripRendered, h1, h2, toDisplayText]
          simpa [toDisplayText] using ih
        · by_cases h4 : cellDisplayWidth c = 2
          · simp [internalizeCells, roundTripRendered, h1, h2, h3, h4, toDisplayText]
            simpa [toDisplayText] using ih
          · simp [internalizeCells, roundTripRendered, h1, h2, h3, h4, toDisplayText]
            simpa [toDisplayText] using ih

/-- Helper: the CRLF pre-normalization is invisible to `roundTripRendered`
(both only delete carriage returns). -/
theorem roundTripRendered_replaceCrLf (s : List Char) :
    roundTripRendered (replaceCrLf s) = roundTripRendered s := by
  induction s using replaceCrLf.induct with
  | case1 rest ih =>
    simp [replaceCrLf, roundTripRendered, ih,
      (by decide : ¬(('\n' : Char) = '\r')),
      (by decide : ¬(('\n' : Char) = CONTINUATION_CELL)),
      (by decide : ¬(cellDisplayWidth '\n' = 2))]
  | case2 c rest h ih =>
    have hstep : replaceCrLf (c :: rest) = c :: replaceCrLf rest := by
      match rest, h with
      | [], _ => simp [replaceCrLf]
      | d :: t, h =>
        by_cases hc : c = '\r'
        · by_cases hd : d = '\n'
          · exact absurd (h t hc (by rw [hd])) (fun f => f)
          · simp [replaceCrLf, hc, hd]
        · simp [replaceCrLf, hc]
    rw [hstep]
    simp only [roundTripRendered, ih]
  | case3 => rfl

/-- Helper: on narrow continuation-free text, the round-trip image is just
the text with carriage returns removed. -/
theorem roundTripRendered_narrow (s : List Char) (h : narrowLine s = true) :
    roundTripRendered s = s.filter fun c => !(c = '\r') := by
  induction s with
  | nil => rfl
  | cons c rest ih =>
    simp only [narrowLine, List.all_cons, Bool.and_eq_true] at h
    obtain ⟨hc, hrest⟩ := h
    simp only [Bool.and_eq_true, Bool.not_eq_true', decide_eq_false_iff_not,
      decide_eq_true_eq] at hc
    by_cases hr : c = '\r'
    · simp [roundTripRendered, hr, ih (by simpa [narrowLine] using hrest)]
    · have hw : ¬(cellDisplayWidth c = 2) := by omega
      simp [roundTripRendered, hr, hc.1, hw, ih (by simpa [narrowLine] using hrest)]

/-- C2 (amended): the cell-encoding round trip is not the identity — for
every string, `toDisplayText (toInternalText s)` equals the
newline-normalized `s` with every continuation sentinel replaced by a
space and a space appended after every wide grapheme; it equals the
newline-normalized `s` itself exactly when `s` contains only narrow,
non-sentinel characters. -/
theorem C2_roundtrip_amended :
    (∀ s : List Char, toDisplayText (toInternalText s) = roundTripRendered s) ∧
    (∀ s : List Char, narrowLine s = true →
      toDisplayText (toInternalText s) = s.filter fun c => !(c = '\r')) := by
  constructor
  · intro s
    unfold toInternalText toCells
    rw [toDisplayText_internalizeCells, roundTripRendered_replaceCrLf]
  · intro s hs
    rw [← roundTripRendered_narrow s hs]
    unfold toInternalText toCells
    rw [toDisplayText_internalizeCells, roundTripRendered_replaceCrLf]

/-- C2 witness: the characterization and the narrow special case at
concrete inputs. -/
theorem C2_roundtrip_amended_witness :
    toDisplayText (toInternalText ['a', '\r', '\n', '가'])
      = roundTripRendered ['a', '\r', '\n', '가'] ∧
    narrowLine ['a', '\r', '\n', 'b'] = true ∧
    toDisplayText (toInternalText ['a', '\r', '\n', 'b']) = ['a', '\n', 'b'] := by
  refine ⟨C2_roundtrip_amended.1 _, by decide, ?_⟩
  rw [C2_roundtrip_amended.2 ['a', '\r', '\n', 'b'] (by decide)]
  decide


theorem getD_set_ne {α : Type} {l : List α} {i j : Nat} (a d : α) (hne : j ≠ i) :
    (l.set i a).getD j d = l.getD j d := by
  simp [List.getD, List.getElem?_set, hne.symm]

theorem getD_set_eq {α : Type} {l : List α} {i : Nat} (a d : α) (h : i < l.length) :
    (l.set i a).getD i d = a := by
  simp [List.getD, List.getElem?_set, h]

theorem set_append_right {α : Type} (l1 l2 : List α) (n : Nat) (y : α) :
    (l1 ++ l2).set (l1.length + n) y = l1 ++ l2.set n y := by
  induction l1 with
  | nil => simp
  | cons p ps ih => simp [List.set, Nat.succ_add, ih]

theorem getD_append_off {α : Type} (l1 l2 : List α) (n : Nat) (d : α) :
    (l1 ++ l2).getD (l1.length + n) d = l2.getD n d := by
  rw [List.getD_append_right _ _ _ _ (by omega)]
  simp

theorem lineOkFrom_narrow {a : Char} {rest : List Char}
    (ha : isContentWide a = false) (h : lineOkFrom a rest = true) : lineOk rest = true := by
  cases rest with
  | nil => rfl
  | cons b t =>
    simp only [lineOkFrom, ha, Bool.and_eq_true, beq_iff_eq] at h
    simp only [lineOk, Bool.and_eq_true]
    obtain ⟨hb, ht⟩ := h
    refine ⟨?_, ht⟩
    simp only [decide_eq_false_iff_not] at hb
    simp [hb]

theorem lineOkFrom_wide {a : Char} {rest : List Char}
    (ha : isContentWide a = true) (h : lineOkFrom a rest = true) :
    ∃ t, rest = CONTINUATION_CELL :: t ∧ lineOk t = true := by
  cases rest with
  | nil => simp [lineOkFrom, ha] at h
  | cons b t =>
    simp only [lineOkFrom, ha, Bool.and_eq_true, beq_iff_eq, decide_eq_true_eq] at h
    obtain ⟨hb, ht⟩ := h
    subst hb
    exact ⟨t, rfl, lineOkFrom_narrow (by decide) ht⟩

theorem setCharInGrid_blank_narrow (pre : List Char) (k : Nat) (ch : Char) (width : Nat)
    (hw : pre.length + 1 + k = width) (hn : cellDisplayWidth ch = 1) :
    setCharInGrid (pre ++ List.replicate (k + 1) ' ') pre.length ch width
      = pre ++ ch :: List.replicate k ' ' := by
  have hrep : List.replicate (k + 1) (' ' : Char) = ' ' :: List.replicate k ' ' := by
    simp [List.replicate_succ]
  rw [hrep]
  have hget : (pre ++ ' ' :: List.replicate k ' ').getD pre.length ' ' = ' ' := by
    simpa using getD_append_off pre (' ' :: List.replicate k ' ') 0 ' '
  have hset : (pre ++ ' ' :: List.replicate k ' ').set pre.length ch
      = pre ++ ch :: List.replicate k ' ' := by
    simpa using set_append_right pre (' ' :: List.replicate k ' ') 0 ch
  have hnw : ¬ (width ≤ pre.length) := by omega
  have hch2 : ¬ (cellDisplayWidth ch = 2) := by omega
  simp only [setCharInGrid, hget, hnw, if_false,
    (by decide : ((' ' : Char) = CONTINUATION_CELL) = False),
    (by decide : (cellDisplayWidth ' ' = 2) = False), hset, hch2, if_true]

theorem setCharInGrid_blank_wide (pre : List Char) (k : Nat) (ch : Char) (width : Nat)
    (hw : pre.length + 2 + k = width) (hwide : cellDisplayWidth ch = 2) :
    setCharInGrid (pre ++ List.replicate (k + 2) ' ') pre.length ch width
      = pre ++ ch :: CONTINUATION_CELL :: List.replicate k ' ' := by
  have hrep : List.replicate (k + 2) (' ' : Char) = ' ' :: ' ' :: List.replicate k ' ' := by
    simp [List.replicate_succ]
  rw [hrep]
  have hget : (pre ++ ' ' :: ' ' :: List.replicate k ' ').getD pre.length ' ' = ' ' := by
    simpa using getD_append_off pre (' ' :: ' ' :: List.replicate k ' ') 0 ' '
  have hset : (pre ++ ' ' :: ' ' :: List.replicate k ' ').set pre.length ch
      = pre ++ ch :: ' ' :: List.replicate k ' ' := by
    simpa using set_append_right pre (' ' :: ' ' :: List.replicate k ' ') 0 ch
  have hget1 : (pre ++ ch :: ' ' :: List.replicate k ' ').getD (pre.length + 1) ' ' = ' ' := by
    simpa using getD_append_off pre (ch :: ' ' :: List.replicate k ' ') 1 ' '
  have hset1 : (pre ++ ch :: ' ' :: List.replicate k ' ').set (pre.length + 1) CONTINUATION_CELL
      = pre ++ ch :: CONTINUATION_CELL :: List.replicate k ' ' := by
    simpa using set_append_right pre (ch :: ' ' :: List.replicate k ' ') 1 CONTINUATION_CELL
  have hnw : ¬ (width ≤ pre.length) := by omega
  have hlt : pre.length + 1 < width := by omega
  simp only [setCharInGrid, hget, hnw, if_false,
    (by decide : ((' ' : Char) = CONTINUATION_CELL) = False),
    (by decide : (cellDisplayWidth ' ' = 2) = False), hset, hwide, hget1, hlt,
    if_true, hset1]


theorem compositeWalk_wf (width : Nat) :
    ∀ (cells pre : List Char) (k : Nat), lineOk cells = true →
      pre.length + cells.length + k = width →
      compositeWalk width (pre ++ List.replicate (cells.length + k) ' ') cells pre.length false
        = pre ++ cells.map (fun c => if c = TRANSPARENT_CELL then ' ' else c)
            ++ List.replicate k ' '
  | [], pre, k, _, _ => by simp [compositeWalk]
  | ch :: rest, pre, k, h, hw => by
    have hok : ¬(ch = CONTINUATION_CELL) ∧ lineOkFrom ch rest = true := by
      simpa [lineOk, Bool.and_eq_true] using h
    obtain ⟨hch, hfrom⟩ := hok
    have hcol : ¬ ((width : Nat) ≤ pre.length) := by
      simp only [List.length_cons] at hw; omega
    by_cases hts : ch = TRANSPARENT_CELL ∨ ch = ' '
    · have hnarrow : isContentWide ch = false := by
        rcases hts with h' | h' <;> subst h' <;> decide
      have hrest : lineOk rest = true := lineOkFrom_narrow hnarrow hfrom
      have hgrid : pre ++ List.replicate ((ch :: rest).length + k) ' '
          = (pre ++ [' ']) ++ List.replicate (rest.length + k) ' ' := by
        have h1 : (ch :: rest).length + k = (rest.length + k) + 1 := by simp; omega
        rw [h1, List.replicate_succ]
        simp
      have ih := compositeWalk_wf width rest (pre ++ [' ']) k hrest
        (by simp only [List.length_cons] at hw ⊢; simp; omega)
      rw [compositeWalk, if_neg (by simp), if_neg hcol, if_pos hts, hgrid]
      have h2 : pre.length + 1 = (pre ++ [' ']).length := by simp
      rw [h2, ih]
      have hmap : (if ch = TRANSPARENT_CELL then ' ' else ch) = ' ' := by
        rcases hts with h' | h' <;> simp [h']
      simp [hmap]
    · push_neg at hts
      by_cases hwide : cellDisplayWidth ch = 2
      · obtain ⟨t, rfl, ht⟩ := lineOkFrom_wide
          (by simp [isContentWide, hch, hwide]) hfrom
        have hlen : (ch :: CONTINUATION_CELL :: t).length + k = (t.length + k) + 2 := by
          simp; omega
        have hgrid : pre ++ List.replicate ((ch :: CONTINUATION_CELL :: t).length + k) ' '
            = pre ++ List.replicate ((t.length + k) + 2) ' ' := by rw [hlen]
        rw [compositeWalk, if_neg (by simp), if_neg hcol,
          if_neg (by simp [hts.1, hts.2]), if_pos hwide, hgrid,
          setCharInGrid_blank_wide pre (t.length + k) ch width
            (by simp only [List.length_cons] at hw; omega) hwide]
        rw [compositeWalk, if_pos (by simp)]
        have hpre2 : pre ++ ch :: CONTINUATION_CELL :: List.replicate (t.length + k) ' '
            = (pre ++ [ch, CONTINUATION_CELL]) ++ List.replicate (t.length + k) ' ' := by simp
        have hcol2 : pre.length + 2 = (pre ++ [ch, CONTINUATION_CELL]).length := by simp
        rw [hpre2, hcol2, compositeWalk_wf width t (pre ++ [ch, CONTINUATION_CELL]) k ht
          (by simp only [List.length_cons] at hw; simp; omega)]
        have hm1 : (if ch = TRANSPARENT_CELL then ' ' else ch) = ch := by simp [hts.1]
        have hm2 : (if CONTINUATION_CELL = TRANSPARENT_CELL then ' ' else CONTINUATION_CELL)
            = CONTINUATION_CELL := by decide
        simp [hm1, hm2]
      · have hn : cellDisplayWidth ch = 1 := by
          unfold cellDisplayWidth at hwide ⊢; split_ifs at hwide ⊢ <;> omega
        have hrest : lineOk rest = true :=
          lineOkFrom_narrow (by simp [isContentWide, hwide]) hfrom
        have hlen : (ch :: rest).length + k = (rest.length + k) + 1 := by simp; omega
        have hgrid : pre ++ List.replicate ((ch :: rest).length + k) ' '
            = pre ++ List.replicate ((rest.length + k) + 1) ' ' := by rw [hlen]
        rw [compositeWalk, if_neg (by simp), if_neg hcol,
          if_neg (by simp [hts.1, hts.2]), if_neg hwide, hgrid,
          setCharInGrid_blank_narrow pre (rest.length + k) ch width
            (by simp only [List.length_cons] at hw; omega) hn]
        have hpre2 : pre ++ ch :: List.replicate (rest.length + k) ' '
            = (pre ++ [ch]) ++ List.replicate (rest.length + k) ' ' := by simp
        have hcol2 : pre.length + 1 = (pre ++ [ch]).length := by simp
        rw [hpre2, hcol2, compositeWalk_wf width rest (pre ++ [ch]) k hrest
          (by simp only [List.length_cons] at hw; simp; omega)]
        have hm1 : (if ch = TRANSPARENT_CELL then ' ' else ch) = ch := by simp [hts.1]
        simp [hm1]
termination_by cells => cells.length


theorem compositeRowFold_length (w h : Nat) (lines : List Line) :
    ∀ (n : Nat) (grid : List (List Char)),
      ((List.range n).foldl (fun g r' =>
        if h ≤ r' then g
        else g.set r' (compositeWalk w (g.getD r' []) (toCells (lines.getD r' [])) 0 false))
        grid).length = grid.length := by
  intro n
  induction n with
  | zero => intro grid; rfl
  | succ m ih =>
    intro grid
    rw [List.range_succ, List.foldl_append]
    simp only [List.foldl_cons, List.foldl_nil]
    by_cases hm : h ≤ m
    · rw [if_pos hm, ih]
    · rw [if_neg hm, List.length_set, ih]

theorem compositeRowFold_getD (w h : Nat) (lines : List Line) :
    ∀ (n : Nat) (grid : List (List Char)), grid.length = h → n ≤ h → ∀ (r : Nat),
      ((List.range n).foldl (fun g r' =>
        if h ≤ r' then g
        else g.set r' (compositeWalk w (g.getD r' []) (toCells (lines.getD r' [])) 0 false))
        grid).getD r []
      = if r < n then compositeWalk w (grid.getD r []) (toCells (lines.getD r [])) 0 false
        else grid.getD r [] := by
  intro n
  induction n with
  | zero => intro grid _ _ r; simp
  | succ m ih =>
    intro grid hg hm r
    rw [List.range_succ, List.foldl_append]
    simp only [List.foldl_cons, List.foldl_nil]
    have hmh : ¬ (h ≤ m) := by omega
    rw [if_neg hmh]
    have hgd : ((List.range m).foldl (fun g r' =>
        if h ≤ r' then g
        else g.set r' (compositeWalk w (g.getD r' []) (toCells (lines.getD r' [])) 0 false))
        grid).getD m [] = grid.getD m [] := by
      rw [ih grid hg (by omega) m]
      simp
    rw [hgd]
    by_cases hr : r = m
    · subst hr
      rw [getD_set_eq]
      · simp
      · rw [compositeRowFold_length]
        omega
    · rw [getD_set_ne _ _ hr, ih grid hg (by omega) r]
      by_cases hrm : r < m
      · rw [if_pos hrm, if_pos (by omega)]
      · rw [if_neg hrm, if_neg (by omega)]


set_option maxHeartbeats 1000000 in
/-- C4: compositing a single visible layer at its own width and height
against the all-space background reproduces the layer's buffer exactly, up
to transparent sentinels rendering as blanks and right-padding with spaces
to the full width. -/
theorem C4_composite_single_layer (L : Layer) (hvis : L.visible = true)
    (hwf : ∀ line ∈ L.buffer.lines, lineOk line = true ∧ line.length ≤ L.buffer.width)
    (hlen : L.buffer.lines.length = L.buffer.height) :
    compositeBuffers [L] L.buffer.width L.buffer.height
      = { width := L.buffer.width, height := L.buffer.height,
          lines := L.buffer.lines.map (compositeSpecRow L.buffer.width) } := by
  set w := L.buffer.width with hwdef
  set h := L.buffer.height with hhdef
  unfold compositeBuffers
  simp only [List.foldl_cons, List.foldl_nil, hvis]
  rw [if_neg (by simp [hvis])]
  congr 1
  rw [← hhdef]
  have hg0 : (List.replicate h (List.replicate w ' ')).length = h := by simp
  apply List.ext_getElem
  · rw [compositeRowFold_length]
    simp [hlen]
  · intro i h1 h2
    rw [← List.getD_eq_getElem _ [] h1, ← List.getD_eq_getElem _ [] h2]
    have hih : i < h := by
      rw [compositeRowFold_length, hg0] at h1
      exact h1
    rw [compositeRowFold_getD w h L.buffer.lines h _ hg0 (le_refl h) i, if_pos hih]
    have hrep : (List.replicate h (List.replicate w ' ')).getD i [] = List.replicate w ' ' := by
      rw [List.getD_eq_getElem _ [] (by simp [hih])]
      simp
    rw [hrep]
    have hmem : L.buffer.lines.getD i [] ∈ L.buffer.lines := by
      rw [List.getD_eq_getElem _ [] (by omega)]
      exact List.getElem_mem _
    obtain ⟨hok, hle⟩ := hwf _ hmem
    have hsum : ([] : List Char).length + (L.buffer.lines.getD i []).length
        + (w - (L.buffer.lines.getD i []).length) = w := by
      simp only [List.length_nil, Nat.zero_add]
      omega
    have hw2 : List.replicate w ' '
        = ([] : List Char) ++ List.replicate ((L.buffer.lines.getD i []).length
            + (w - (L.buffer.lines.getD i []).length)) ' ' := by
      have hxw : (L.buffer.lines.getD i []).length
          + (w - (L.buffer.lines.getD i []).length) = w := by omega
      rw [hxw, List.nil_append]
    rw [hw2]
    have hwalk := compositeWalk_wf w (L.buffer.lines.getD i [])
      [] (w - (L.buffer.lines.getD i []).length) hok hsum
    simp only [List.length_nil, List.nil_append, toCells] at hwalk ⊢
    rw [hwalk]
    have h3 : i < L.buffer.lines.length := by simpa using h2
    rw [List.getD_eq_getElem (List.map (compositeSpecRow w) L.buffer.lines) [] h2]
    rw [List.getElem_map]
    rw [List.getD_eq_getElem _ [] h3]
    simp [compositeSpecRow]


/-- C4 witness: the characterization at a concrete wide-glyph layer with a
transparent sentinel and a short row. -/
theorem C4_composite_single_layer_witness :
    compositeBuffers
        [⟨"l", "n", true, false,
          ⟨4, 2, [['가', CONTINUATION_CELL, ' ', 'x'], [TRANSPARENT_CELL, 'y']]⟩⟩] 4 2
      = ⟨4, 2, [['가', CONTINUATION_CELL, ' ', 'x'], [' ', 'y', ' ', ' ']]⟩ :=
  (C4_composite_single_layer
    ⟨"l", "n", true, false,
      ⟨4, 2, [['가', CONTINUATION_CELL, ' ', 'x'], [TRANSPARENT_CELL, 'y']]⟩⟩
    rfl (by decide) (by decide)).trans (by decide)


theorem indexOfFromAux_some {l q : List Char} :
    ∀ (k i j : Nat), indexOfFromAux l q i k = some j →
      i ≤ j ∧ j + q.length ≤ l.length ∧ (l.drop j).take q.length = q ∧
      (∀ m, i ≤ m → m < j → ¬((l.drop m).take q.length = q)) := by
  intro k
  induction k with
  | zero => intro i j h; simp [indexOfFromAux] at h
  | succ n ih =>
    intro i j h
    by_cases hb : i + q.length ≤ l.length
    · by_cases hocc : (l.drop i).take q.length = q
      · have hj : j = i := by
          simp [indexOfFromAux, hb, hocc] at h
          omega
        subst hj
        exact ⟨le_refl _, hb, hocc, fun m h1 h2 _ => by omega⟩
      · have h' : indexOfFromAux l q (i + 1) n = some j := by
          simpa [indexOfFromAux, hb, hocc] using h
        obtain ⟨h1, h2, h3, h4⟩ := ih (i + 1) j h'
        refine ⟨by omega, h2, h3, ?_⟩
        intro m hm1 hm2
        by_cases hmi : m = i
        · subst hmi; exact hocc
        · exact h4 m (by omega) hm2
    · simp [indexOfFromAux, hb] at h

theorem indexOfFromAux_none {l q : List Char} :
    ∀ (k i : Nat), indexOfFromAux l q i k = none → l.length + 1 ≤ i + k →
      ∀ m, i ≤ m → m + q.length ≤ l.length → ¬((l.drop m).take q.length = q) := by
  intro k
  induction k with
  | zero =>
    intro i _ hfuel m hm1 hm2
    intro _
    omega
  | succ n ih =>
    intro i h hfuel m hm1 hm2
    by_cases hb : i + q.length ≤ l.length
    · by_cases hocc : (l.drop i).take q.length = q
      · simp [indexOfFromAux, hb, hocc] at h
      · have h' : indexOfFromAux l q (i + 1) n = none := by
          simpa [indexOfFromAux, hb, hocc] using h
        by_cases hmi : m = i
        · subst hmi; exact hocc
        · exact ih (i + 1) h' (by omega) m (by omega) hm2
    · intro _
      omega


theorem indexOfFrom_some {l q : List Char} {i j : Nat} (h : indexOfFrom l q i = some j) :
    i ≤ j ∧ j + q.length ≤ l.length ∧ (l.drop j).take q.length = q ∧
    (∀ m, i ≤ m → m < j → ¬((l.drop m).take q.length = q)) :=
  indexOfFromAux_some _ i j h

theorem indexOfFrom_none {l q : List Char} {i : Nat} (h : indexOfFrom l q i = none) :
    ∀ m, i ≤ m → m + q.length ≤ l.length → ¬((l.drop m).take q.length = q) :=
  indexOfFromAux_none _ i h (by omega)

theorem matchScanRowAux_spec (line q : List Char) :
    ∀ (k idx : Nat), line.length + 1 ≤ idx + k →
      (∀ c ∈ matchScanRowAux line q idx k,
        idx ≤ c ∧ c + q.length ≤ line.length ∧ (line.drop c).take q.length = q) ∧
      List.Chain' (fun a b => a + max 1 q.length ≤ b) (matchScanRowAux line q idx k) ∧
      (∀ m, idx ≤ m → m + q.length ≤ line.length → (line.drop m).take q.length = q →
        ∃ c ∈ matchScanRowAux line q idx k, c ≤ m ∧ m < c + max 1 q.length) := by
  intro k
  induction k with
  | zero =>
    intro idx hfuel
    refine ⟨by simp [matchScanRowAux], by simp [matchScanRowAux], ?_⟩
    intro m hm1 hm2 _
    omega
  | succ n ih =>
    intro idx hfuel
    match hfind : indexOfFrom line q idx with
    | none =>
      refine ⟨by simp [matchScanRowAux, hfind], by simp [matchScanRowAux, hfind], ?_⟩
      intro m hm1 hm2 hocc
      exact absurd hocc (indexOfFrom_none hfind m hm1 hm2)
    | some found =>
      obtain ⟨hif1, hif2, hif3, hif4⟩ := indexOfFrom_some hfind
      have hscan : matchScanRowAux line q idx (n + 1)
          = found :: matchScanRowAux line q (found + max 1 q.length) n := by
        simp [matchScanRowAux, hfind]
      have hfuel' : line.length + 1 ≤ (found + max 1 q.length) + n := by omega
      obtain ⟨ihs, ihc, ihcomp⟩ := ih (found + max 1 q.length) hfuel'
      refine ⟨?_, ?_, ?_⟩
      · intro c hc
        rw [hscan] at hc
        rcases List.mem_cons.mp hc with hc | hc
        · subst hc; exact ⟨hif1, hif2, hif3⟩
        · obtain ⟨h1, h2, h3⟩ := ihs c hc
          exact ⟨by omega, h2, h3⟩
      · rw [hscan]
        refine List.Chain'.cons' ihc ?_
        intro y hy
        have hmem : y ∈ matchScanRowAux line q (found + max 1 q.length) n :=
          List.mem_of_mem_head? hy
        have := (ihs y hmem).1
        omega
      · intro m hm1 hm2 hocc
        have hmf : found ≤ m := by
          by_contra hlt
          exact hif4 m hm1 (by omega) hocc
        by_cases hnear : m < found + max 1 q.length
        · refine ⟨found, ?_, hmf, hnear⟩
          rw [hscan]; exact List.mem_cons_self _ _
        · obtain ⟨c, hcmem, hc1, hc2⟩ := ihcomp m (by omega) hm2 hocc
          refine ⟨c, ?_, hc1, hc2⟩
          rw [hscan]
          exact List.mem_cons_of_mem _ hcmem


theorem matchScanRow_spec (line q : List Char) :
    (∀ c ∈ matchScanRow line q 0,
      c + q.length ≤ line.length ∧ (line.drop c).take q.length = q) ∧
    List.Chain' (fun a b => a + max 1 q.length ≤ b) (matchScanRow line q 0) ∧
    (∀ m, m + q.length ≤ line.length → (line.drop m).take q.length = q →
      ∃ c ∈ matchScanRow line q 0, c ≤ m ∧ m < c + max 1 q.length) := by
  obtain ⟨hs, hc, hcomp⟩ := matchScanRowAux_spec line q (line.length + 1 - 0) 0 (by omega)
  exact ⟨fun c hcm => ⟨(hs c hcm).2.1, (hs c hcm).2.2⟩, hc,
    fun m h1 h2 => hcomp m (Nat.zero_le m) h1 h2⟩

/-- C7: `computeMatches` returns no matches for the empty query; every
returned cell is a real occurrence of the query in that row's rendered
external text (the column is the cell column, since the internal encoding
gives each wide glyph an explicit second cell); matches come in row-major
left-to-right order, consecutive same-row matches at least
`max 1 query.length` columns apart; and every occurrence is covered by a
returned match within that advance. -/
theorem C7_computeMatches_correct (buffer : TextBuffer) (query : List Char) :
    computeMatches buffer [] = [] ∧
    (∀ m ∈ computeMatches buffer query, ∃ r c : Nat,
        m = { row := (r : Int), col := (c : Int) } ∧ r < buffer.height ∧
        c + query.length ≤ (toDisplayText (buffer.lines.getD r [])).length ∧
        ((toDisplayText (buffer.lines.getD r [])).drop c).take query.length = query) ∧
    List.Chain'
      (fun m1 m2 => m1.row < m2.row ∨
        (m1.row = m2.row ∧ m1.col + ((max 1 query.length : Nat) : Int) ≤ m2.col))
      (computeMatches buffer query) ∧
    (∀ (r c : Nat), query ≠ [] → r < buffer.height →
      c + query.length ≤ (toDisplayText (buffer.lines.getD r [])).length →
      ((toDisplayText (buffer.lines.getD r [])).drop c).take query.length = query →
      ∃ m ∈ computeMatches buffer query, m.row = (r : Int) ∧
        m.col ≤ (c : Int) ∧ (c : Int) < m.col + ((max 1 query.length : Nat) : Int)) := by
  by_cases hq : query = []
  · subst hq
    refine ⟨by simp [computeMatches], ?_, ?_, ?_⟩
    · intro m hm; simp [computeMatches] at hm
    · simp [computeMatches]
    · intro r c hne; exact absurd rfl hne
  · have hunfold : computeMatches buffer query
        = (List.range buffer.height).flatMap fun row =>
            (matchScanRow (toDisplayText (buffer.lines.getD row [])) query 0).map fun (col : Nat) =>
              ({ row := (row : Int), col := (col : Int) } : Cell) := by
      simp [computeMatches, hq]
    refine ⟨by simp [computeMatches], ?_, ?_, ?_⟩
    · intro m hm
      rw [hunfold] at hm
      obtain ⟨r, hr, hm⟩ := List.mem_flatMap.mp hm
      obtain ⟨c, hcm, hmc⟩ := List.mem_map.mp hm
      obtain ⟨h1, h2⟩ := (matchScanRow_spec _ query).1 c hcm
      exact ⟨r, c, hmc.symm, List.mem_range.mp hr, h1, h2⟩
    · rw [hunfold]
      have main : ∀ n : Nat,
          List.Chain'
            (fun m1 m2 : Cell => m1.row < m2.row ∨
              (m1.row = m2.row ∧ m1.col + ((max 1 query.length : Nat) : Int) ≤ m2.col))
            ((List.range n).flatMap fun row =>
              (matchScanRow (toDisplayText (buffer.lines.getD row [])) query 0).map fun (col : Nat) =>
                ({ row := (row : Int), col := (col : Int) } : Cell)) ∧
          (∀ m ∈ (List.range n).flatMap fun row =>
              (matchScanRow (toDisplayText (buffer.lines.getD row [])) query 0).map fun (col : Nat) =>
                ({ row := (row : Int), col := (col : Int) } : Cell),
            ∃ rr : Nat, rr < n ∧ m.row = (rr : Int)) := by
        intro n
        induction n with
        | zero => simp
        | succ p ih =>
          obtain ⟨ihc, ihrow⟩ := ih
          rw [List.range_succ, List.flatMap_append]
          constructor
          · refine List.Chain'.append ihc ?_ ?_
            · simp only [List.flatMap_cons, List.flatMap_nil, List.append_nil]
              rw [List.chain'_map]
              refine List.Chain'.imp ?_ ((matchScanRow_spec _ query).2.1)
              intro a b hab
              right
              refine ⟨rfl, ?_⟩
              push_cast
              omega
            · intro x hx y hy
              have hxm : x ∈ (List.range p).flatMap fun row =>
                  (matchScanRow (toDisplayText (buffer.lines.getD row [])) query 0).map
                    fun (col : Nat) => ({ row := (row : Int), col := (col : Int) } : Cell) :=
                List.mem_of_mem_getLast? hx
              obtain ⟨rr, hrr, hxrow⟩ := ihrow x hxm
              have hym : y ∈ (matchScanRow (toDisplayText (buffer.lines.getD p [])) query 0).map
                  fun (col : Nat) => ({ row := (p : Int), col := (col : Int) } : Cell) := by
                have := List.mem_of_mem_head? hy
                simpa using this
              obtain ⟨cc, _, hcy⟩ := List.mem_map.mp hym
              left
              rw [hxrow, ← hcy]
              show (rr : Int) < (p : Int)
              exact_mod_cast hrr
          · intro m hm
            rcases List.mem_append.mp hm with hm | hm
            · obtain ⟨rr, hrr, hrow⟩ := ihrow m hm
              exact ⟨rr, by omega, hrow⟩
            · simp only [List.flatMap_cons, List.flatMap_nil, List.append_nil] at hm
              obtain ⟨cc, _, hcy⟩ := List.mem_map.mp hm
              exact ⟨p, by omega, by rw [← hcy]⟩
      exact (main buffer.height).1
    · intro r c hne hr hlen hocc
      obtain ⟨cc, hccm, hcc1, hcc2⟩ := (matchScanRow_spec _ query).2.2 c hlen hocc
      refine ⟨{ row := (r : Int), col := (cc : Int) }, ?_, rfl,
        by show (cc : Int) ≤ (c : Int); exact_mod_cast hcc1, ?_⟩
      · rw [hunfold]
        refine List.mem_flatMap.mpr ⟨r, List.mem_range.mpr hr, ?_⟩
        exact List.mem_map.mpr ⟨cc, hccm, rfl⟩
      · push_cast
        omega


/-- C7 witness: on a concrete buffer whose first row starts with a wide
glyph, the occurrence of `ab` at cell column 2 is reported. -/
theorem C7_computeMatches_correct_witness :
    ∃ m ∈ computeMatches ⟨6, 2, [['가', CONTINUATION_CELL, 'a', 'b'], "abab".toList]⟩
        "ab".toList,
      m.row = ((0 : Nat) : Int) ∧ m.col ≤ ((2 : Nat) : Int) ∧
      ((2 : Nat) : Int) < m.col + ((max 1 ("ab".toList).length : Nat) : Int) :=
  (C7_computeMatches_correct ⟨6, 2, [['가', CONTINUATION_CELL, 'a', 'b'], "abab".toList]⟩
    "ab".toList).2.2.2 0 2 (by decide) (by decide) (by decide) (by decide)


theorem narrowLine_getD {l : Line} (h : narrowLine l = true) (i : Nat) :
    (l.getD i ' ') ≠ CONTINUATION_CELL ∧ cellDisplayWidth (l.getD i ' ') = 1 := by
  by_cases hi : i < l.length
  · have hmem : l.getD i ' ' ∈ l := by
      rw [List.getD_eq_getElem _ _ hi]
      exact List.getElem_mem _
    have := (List.all_eq_true.mp h) _ hmem
    simp only [Bool.and_eq_true, Bool.not_eq_true', decide_eq_false_iff_not,
      decide_eq_true_eq] at this
    exact this
  · rw [List.getD_eq_default _ _ (by omega)]
    exact ⟨by decide, by decide⟩

theorem clearContRunFrom_noCont {l : List Char} {i : Nat}
    (h : l.getD i ' ' ≠ CONTINUATION_CELL) : clearContRunFrom l i = l := by
  unfold clearContRunFrom
  cases hk : l.length - i with
  | zero => rfl
  | succ k =>
    simp only [clearContRunFromAux]
    rw [if_neg h]

theorem setNarrowCell_length (l : Line) (c : Nat) (ch : Char) :
    (setNarrowCell l c ch).length = max l.length (c + 1) := by
  unfold setNarrowCell
  by_cases h : l.length ≤ c
  · simp [h]
    omega
  · simp [h]
    omega

theorem setNarrowCell_getD_eq (l : Line) (c : Nat) (ch : Char) :
    (setNarrowCell l c ch).getD c ' ' = ch := by
  unfold setNarrowCell
  by_cases h : l.length ≤ c
  · rw [if_pos h]
    have hlen2 : (l ++ List.replicate (c - l.length) ' ').length + 0 = c := by simp; omega
    have h2 := getD_append_off (l ++ List.replicate (c - l.length) ' ') [ch] 0 ' '
    rw [hlen2] at h2
    rw [h2]
    rfl
  · rw [if_neg h]
    exact getD_set_eq _ _ (by omega)

theorem setNarrowCell_getD_ne (l : Line) (c : Nat) (ch : Char) (j : Nat) (hj : j ≠ c) :
    (setNarrowCell l c ch).getD j ' ' = l.getD j ' ' := by
  unfold setNarrowCell
  by_cases h : l.length ≤ c
  · rw [if_pos h]
    by_cases hjl : j < l.length
    · rw [List.append_assoc, List.getD_append _ _ _ _ hjl]
    · rw [List.getD_eq_default l _ (by omega)]
      by_cases hjc : j < c
      · have hj2 : j - l.length < (List.replicate (c - l.length) (' ' : Char)).length := by
          simp; omega
        rw [List.append_assoc, List.getD_append_right _ _ _ _ (by omega),
          List.getD_append _ _ _ _ hj2]
        rw [List.getD_eq_getElem _ _ hj2]
        simp
      · rw [List.getD_eq_default _ _ (by simp; omega)]
  · rw [if_neg h]
    exact getD_set_ne _ _ hj

theorem narrowLine_mem {l : Line} (h : narrowLine l = true) {c : Char} (hc : c ∈ l) :
    ¬(c = CONTINUATION_CELL) ∧ cellDisplayWidth c = 1 := by
  have := (List.all_eq_true.mp h) _ hc
  simp only [Bool.and_eq_true, Bool.not_eq_true', decide_eq_false_iff_not,
    decide_eq_true_eq] at this
  exact this

theorem narrowLine_setNarrowCell {l : Line} (h : narrowLine l = true) (c : Nat) {ch : Char}
    (hch : ¬(ch = CONTINUATION_CELL)) (hw : cellDisplayWidth ch = 1) :
    narrowLine (setNarrowCell l c ch) = true := by
  rw [narrowLine, List.all_eq_true]
  intro x hx
  unfold setNarrowCell at hx
  have hxcase : x ∈ l ∨ x = ' ' ∨ x = ch := by
    by_cases hlen : l.length ≤ c
    · rw [if_pos hlen] at hx
      rcases List.mem_append.mp hx with hx | hx
      · rcases List.mem_append.mp hx with hx | hx
        · exact Or.inl hx
        · exact Or.inr (Or.inl (List.eq_of_mem_replicate hx))
      · simp only [List.mem_singleton] at hx
        exact Or.inr (Or.inr hx)
    · rw [if_neg hlen] at hx
      rcases List.mem_or_eq_of_mem_set hx with hx | hx
      · exact Or.inl hx
      · exact Or.inr (Or.inr hx)
  rcases hxcase with hx | hx | hx
  · have := narrowLine_mem h hx
    simp [this.1, this.2]
  · subst hx; decide
  · subst hx; simp [hch, hw]

theorem setCharInLines_narrow (lines : List Line) (row col : Int) (ch : Char) (width : Nat)
    (hr1 : 0 ≤ row) (hr2 : row < (lines.length : Int))
    (hc1 : 0 ≤ col) (hc2 : col < (width : Int))
    (hnl : narrowLine (lines.getD row.toNat []) = true)
    (hch : ¬(ch = CONTINUATION_CELL)) (hw : cellDisplayWidth ch = 1) :
    setCharInLines lines row col ch width
      = lines.set row.toNat
          ((setNarrowCell (lines.getD row.toNat []) col.toNat ch).take width) := by
  have g1 : (row < 0 ∨ (lines.length : Int) ≤ row) = False := by
    simp only [eq_iff_iff, iff_false]
    omega
  have g2 : (col < 0 ∨ (width : Int) ≤ col) = False := by
    simp only [eq_iff_iff, iff_false]
    omega
  have g3 : (¬ch = CONTINUATION_CELL ∧ cellDisplayWidth ch = 2 ∧ width ≤ col.toNat + 1)
      = False := by
    simp only [eq_iff_iff, iff_false]
    simp [hw]
  have g4 : (¬ch = CONTINUATION_CELL ∧ cellDisplayWidth ch = 2 ∧ col.toNat + 1 < width)
      = False := by
    simp only [eq_iff_iff, iff_false]
    simp [hw]
  have hnc : ((lines.getD row.toNat []).getD col.toNat ' ' = CONTINUATION_CELL) = False := by
    simp only [eq_iff_iff, iff_false]
    exact (narrowLine_getD hnl _).1
  have hclr : clearContRunFrom (lines.getD row.toNat []) (col.toNat + 1)
      = lines.getD row.toNat [] := clearContRunFrom_noCont (narrowLine_getD hnl _).1
  by_cases hlen : (lines.getD row.toNat []).length ≤ col.toNat
  · simp only [setCharInLines, toCells, g1, g2, g3, g4, if_false, hlen, if_true, hch,
      not_false_eq_true, hnc, hclr, setNarrowCell]
  · simp only [setCharInLines, toCells, g1, g2, g3, g4, if_false, hlen, if_true, hch,
      not_false_eq_true, hnc, hclr, setNarrowCell]
    rw [ite_self]


theorem pasteStepCol_fold (base : TextBuffer) (atCell : Cell) (rowCells : List Char) (r : Nat)
    (lines : List Line) (hlen : lines.length = base.height)
    (hnarrow : narrowLine (lines.getD (atCell.row + (r : Int)).toNat []) = true)
    (hrowlen : (lines.getD (atCell.row + (r : Int)).toNat []).length ≤ base.width)
    (hcells : ∀ ch ∈ rowCells, ¬(ch = CONTINUATION_CELL) ∧ cellDisplayWidth ch = 1)
    (hr1 : 0 ≤ atCell.row + (r : Int)) (hr2 : atCell.row + (r : Int) < (base.height : Int)) :
    ∀ n : Nat,
      ((List.range n).foldl (pasteStepCol base atCell rowCells r) lines).length = base.height ∧
      (∀ r' : Nat, r' ≠ (atCell.row + (r : Int)).toNat →
        ((List.range n).foldl (pasteStepCol base atCell rowCells r) lines).getD r' []
          = lines.getD r' []) ∧
      narrowLine (((List.range n).foldl (pasteStepCol base atCell rowCells r) lines).getD
        (atCell.row + (r : Int)).toNat []) = true ∧
      (((List.range n).foldl (pasteStepCol base atCell rowCells r) lines).getD
        (atCell.row + (r : Int)).toNat []).length ≤ base.width ∧
      (∀ c : Nat, c < n → 0 ≤ atCell.col + (c : Int) →
        atCell.col + (c : Int) < (base.width : Int) →
        (((List.range n).foldl (pasteStepCol base atCell rowCells r) lines).getD
          (atCell.row + (r : Int)).toNat []).getD (atCell.col + (c : Int)).toNat ' '
          = rowCells.getD c ' ') ∧
      (∀ j : Nat, ((j : Int) < atCell.col ∨ atCell.col + (n : Int) ≤ (j : Int)) →
        (((List.range n).foldl (pasteStepCol base atCell rowCells r) lines).getD
          (atCell.row + (r : Int)).toNat []).getD j ' '
          = (lines.getD (atCell.row + (r : Int)).toNat []).getD j ' ') := by
  intro n
  induction n with
  | zero =>
    refine ⟨by simpa using hlen, by simp, by simpa using hnarrow, by simpa using hrowlen,
      by omega, by simp⟩
  | succ m ih =>
    obtain ⟨ih1, ih2, ih3, ih4, ih5, ih6⟩ := ih
    rw [List.range_succ, List.foldl_append, List.foldl_cons, List.foldl_nil]
    set F := (List.range m).foldl (pasteStepCol base atCell rowCells r) lines with hF
    by_cases hcb : 0 ≤ atCell.col + (m : Int) ∧ atCell.col + (m : Int) < (base.width : Int)
    · -- in-bounds write at column m
      have hchn : ¬(rowCells.getD m ' ' = CONTINUATION_CELL) ∧
          cellDisplayWidth (rowCells.getD m ' ') = 1 := by
        by_cases hm : m < rowCells.length
        · exact hcells _ (by rw [List.getD_eq_getElem _ _ hm]; exact List.getElem_mem _)
        · rw [List.getD_eq_default _ _ (by omega)]
          exact ⟨by decide, by decide⟩
      have hstep : pasteStepCol base atCell rowCells r F m
          = F.set (atCell.row + (r : Int)).toNat
              ((setNarrowCell (F.getD (atCell.row + (r : Int)).toNat [])
                (atCell.col + (m : Int)).toNat (rowCells.getD m ' ')).take base.width) := by
        unfold pasteStepCol
        rw [if_neg (by omega), if_neg (by omega)]
        exact setCharInLines_narrow F _ _ _ _ hr1 (by omega) (by omega) (by omega) ih3
          hchn.1 hchn.2
      have hsetlen : (setNarrowCell (F.getD (atCell.row + (r : Int)).toNat [])
          (atCell.col + (m : Int)).toNat (rowCells.getD m ' ')).length ≤ base.width := by
        rw [setNarrowCell_length]
        have : (atCell.col + (m : Int)).toNat + 1 ≤ base.width := by omega
        omega
      have htake : (setNarrowCell (F.getD (atCell.row + (r : Int)).toNat [])
          (atCell.col + (m : Int)).toNat (rowCells.getD m ' ')).take base.width
          = setNarrowCell (F.getD (atCell.row + (r : Int)).toNat [])
              (atCell.col + (m : Int)).toNat (rowCells.getD m ' ') :=
        List.take_of_length_le hsetlen
      rw [hstep, htake]
      have hrowlt : (atCell.row + (r : Int)).toNat < F.length := by omega
      refine ⟨by simpa using ih1, ?_, ?_, ?_, ?_, ?_⟩
      · intro r' hr'
        rw [getD_set_ne _ _ hr']
        exact ih2 r' hr'
      · rw [getD_set_eq _ _ hrowlt]
        exact narrowLine_setNarrowCell ih3 _ hchn.1 hchn.2
      · rw [getD_set_eq _ _ hrowlt]
        rw [setNarrowCell_length]
        have : (atCell.col + (m : Int)).toNat + 1 ≤ base.width := by omega
        omega
      · intro c hc hc1 hc2
        rw [getD_set_eq _ _ hrowlt]
        by_cases hcm : c = m
        · subst hcm
          exact setNarrowCell_getD_eq _ _ _
        · rw [setNarrowCell_getD_ne _ _ _ _ (by omega)]
          exact ih5 c (by omega) hc1 hc2
      · intro j hj
        rw [getD_set_eq _ _ hrowlt]
        rw [setNarrowCell_getD_ne _ _ _ _ (by omega)]
        exact ih6 j (by omega)
    · -- column m out of bounds: write skipped
      have hstep : pasteStepCol base atCell rowCells r F m = F := by
        unfold pasteStepCol
        by_cases h1 : atCell.row + (r : Int) < 0 ∨ (base.height : Int) ≤ atCell.row + (r : Int)
        · rw [if_pos h1]
        · rw [if_neg h1, if_pos (by omega)]
      rw [hstep]
      refine ⟨ih1, ih2, ih3, ih4, ?_, ?_⟩
      · intro c hc hc1 hc2
        by_cases hcm : c = m
        · subst hcm; omega
        · exact ih5 c (by omega) hc1 hc2
      · intro j hj
        exact ih6 j (by omega)


theorem cloneLines_length (lines : List Line) (height : Nat) :
    (cloneLines lines height).length = height := by
  simp [cloneLines]

theorem cloneLines_getD (lines : List Line) (height : Nat) (i : Nat) :
    (cloneLines lines height).getD i []
      = if i < height then lines.getD i [] else [] := by
  unfold cloneLines
  by_cases hi : i < height
  · rw [if_pos hi, List.getD_eq_getElem _ _ (by simp [hi])]
    simp
  · rw [if_neg hi, List.getD_eq_default _ _ (by simp; omega)]

theorem pasteStepRow_oob (base : TextBuffer) (atCell : Cell) (clip : BlockClipboard)
    (lines : List Line) (m : Nat)
    (h : atCell.row + (m : Int) < 0 ∨ (base.height : Int) ≤ atCell.row + (m : Int)) :
    pasteStepRow base atCell clip lines m = lines := by
  unfold pasteStepRow
  suffices H : ∀ n, (List.range n).foldl
      (pasteStepCol base atCell (toCells (clip.lines.getD m [])) m) lines = lines by
    exact H clip.width
  intro n
  induction n with
  | zero => rfl
  | succ p ih =>
    rw [List.range_succ, List.foldl_append, List.foldl_cons, List.foldl_nil, ih]
    unfold pasteStepCol
    rw [if_pos h]

theorem pasteStepRow_fold (base : TextBuffer) (atCell : Cell) (clip : BlockClipboard)
    (lines0 : List Line) (hlen : lines0.length = base.height)
    (hnarrow : ∀ r' : Nat, narrowLine (lines0.getD r' []) = true)
    (hrowlen : ∀ r' : Nat, (lines0.getD r' []).length ≤ base.width)
    (hclip : ∀ l ∈ clip.lines, narrowLine l = true) :
    ∀ m : Nat,
      ((List.range m).foldl (pasteStepRow base atCell clip) lines0).length = base.height ∧
      (∀ r' : Nat, narrowLine (((List.range m).foldl (pasteStepRow base atCell clip)
          lines0).getD r' []) = true ∧
        (((List.range m).foldl (pasteStepRow base atCell clip) lines0).getD r' []).length
          ≤ base.width) ∧
      (∀ r' : Nat,
        (∀ rr : Nat, rr < m → ¬(0 ≤ atCell.row + (rr : Int) ∧
          atCell.row + (rr : Int) < (base.height : Int) ∧
          (atCell.row + (rr : Int)).toNat = r')) →
        ((List.range m).foldl (pasteStepRow base atCell clip) lines0).getD r' []
          = lines0.getD r' []) ∧
      (∀ rr : Nat, rr < m → 0 ≤ atCell.row + (rr : Int) →
        atCell.row + (rr : Int) < (base.height : Int) →
        (∀ c : Nat, c < clip.width → 0 ≤ atCell.col + (c : Int) →
          atCell.col + (c : Int) < (base.width : Int) →
          (((List.range m).foldl (pasteStepRow base atCell clip) lines0).getD
            (atCell.row + (rr : Int)).toNat []).getD (atCell.col + (c : Int)).toNat ' '
            = (toCells (clip.lines.getD rr [])).getD c ' ') ∧
        (∀ j : Nat, ((j : Int) < atCell.col ∨ atCell.col + (clip.width : Int) ≤ (j : Int)) →
          (((List.range m).foldl (pasteStepRow base atCell clip) lines0).getD
            (atCell.row + (rr : Int)).toNat []).getD j ' '
            = (lines0.getD (atCell.row + (rr : Int)).toNat []).getD j ' ')) := by
  intro m
  induction m with
  | zero =>
    refine ⟨hlen, fun r' => ⟨hnarrow r', hrowlen r'⟩, fun r' _ => rfl, by omega⟩
  | succ p ih =>
    obtain ⟨ih1, ih2, ih3, ih4⟩ := ih
    rw [List.range_succ, List.foldl_append, List.foldl_cons, List.foldl_nil]
    set G := (List.range p).foldl (pasteStepRow base atCell clip) lines0 with hG
    by_cases hrb : 0 ≤ atCell.row + (p : Int) ∧ atCell.row + (p : Int) < (base.height : Int)
    · -- row p lands in bounds
      have hcells : ∀ ch ∈ toCells (clip.lines.getD p []), ¬(ch = CONTINUATION_CELL) ∧
          cellDisplayWidth ch = 1 := by
        intro ch hch
        by_cases hp : p < clip.lines.length
        · refine narrowLine_mem ?_ hch
          exact hclip _ (by rw [List.getD_eq_getElem _ _ hp]; exact List.getElem_mem _)
        · rw [List.getD_eq_default _ _ (by omega)] at hch
          simp [toCells] at hch
      have hinner := pasteStepCol_fold base atCell (toCells (clip.lines.getD p [])) p G
        ih1 (ih2 _).1 (ih2 _).2 hcells hrb.1 hrb.2 clip.width
      obtain ⟨hi1, hi2, hi3, hi4, hi5, hi6⟩ := hinner
      have hstep : pasteStepRow base atCell clip G p
          = (List.range clip.width).foldl
              (pasteStepCol base atCell (toCells (clip.lines.getD p [])) p) G := rfl
      rw [hstep]
      refine ⟨hi1, ?_, ?_, ?_⟩
      · intro r'
        by_cases hr' : r' = (atCell.row + (p : Int)).toNat
        · subst hr'; exact ⟨hi3, hi4⟩
        · rw [hi2 r' hr']; exact ih2 r'
      · intro r' hr'
        have hrp : r' ≠ (atCell.row + (p : Int)).toNat := by
          intro heq
          exact hr' p (by omega) ⟨hrb.1, hrb.2, heq.symm⟩
        rw [hi2 r' hrp]
        exact ih3 r' (fun rr hrr => hr' rr (by omega))
      · intro rr hrr h1 h2
        by_cases hrp : rr = p
        · subst hrp
          constructor
          · intro c hc hc1 hc2
            exact hi5 c hc hc1 hc2
          · intro j hj
            rw [hi6 j (by omega)]
            have : (atCell.row + (rr : Int)).toNat ≠ (atCell.row + (rr : Int)).toNat → False :=
              fun f => f rfl
            rw [ih3 _ ?_]
            intro rr2 hrr2 hcon
            obtain ⟨hh1, hh2, hh3⟩ := hcon
            omega
        · have hne : (atCell.row + (rr : Int)).toNat ≠ (atCell.row + (p : Int)).toNat := by
            omega
          obtain ⟨hv, hf⟩ := ih4 rr (by omega) h1 h2
          constructor
          · intro c hc hc1 hc2
            rw [hi2 _ hne]
            exact hv c hc hc1 hc2
          · intro j hj
            rw [hi2 _ hne]
            exact hf j hj
    · -- row p out of bounds: whole inner loop skipped
      have hstep : pasteStepRow base atCell clip G p = G :=
        pasteStepRow_oob base atCell clip G p (by omega)
      rw [hstep]
      refine ⟨ih1, ih2, ?_, ?_⟩
      · intro r' hr'
        exact ih3 r' (fun rr hrr => hr' rr (by omega))
      · intro rr hrr h1 h2
        exact ih4 rr (by omega) h1 h2


/-- C8 (amended): for a buffer and clipboard made of narrow, non-sentinel
cells, `pasteRectIntoBuffer` writes each in-bounds clipboard cell at its
offset from the target cell (missing clipboard cells read as spaces),
silently drops cells whose target row or column falls outside the buffer
(rows and columns outside the pasted rectangle are untouched — nothing
wraps), leaves the buffer dimensions unchanged, and is a no-op on a null
clipboard.  (For wide clipboard cells the claim fails as stated: a wide
cell whose continuation column falls outside the buffer is downgraded to
a space by `setCharInLines`.) -/
theorem C8_paste_amended (base : TextBuffer) (atCell : Cell) (clip : BlockClipboard)
    (hlen : base.lines.length = base.height)
    (hbase : ∀ l ∈ base.lines, narrowLine l = true ∧ l.length ≤ base.width)
    (hclip : ∀ l ∈ clip.lines, narrowLine l = true) :
    pasteRectIntoBuffer base atCell none = base ∧
    (pasteRectIntoBuffer base atCell (some clip)).width = base.width ∧
    (pasteRectIntoBuffer base atCell (some clip)).height = base.height ∧
    (pasteRectIntoBuffer base atCell (some clip)).lines.length = base.height ∧
    (∀ r c : Nat, r < clip.height → c < clip.width →
      0 ≤ atCell.row + (r : Int) → atCell.row + (r : Int) < (base.height : Int) →
      0 ≤ atCell.col + (c : Int) → atCell.col + (c : Int) < (base.width : Int) →
      ((pasteRectIntoBuffer base atCell (some clip)).lines.getD
          (atCell.row + (r : Int)).toNat []).getD (atCell.col + (c : Int)).toNat ' '
        = (clip.lines.getD r []).getD c ' ') ∧
    (∀ r' : Nat,
      (∀ rr : Nat, rr < clip.height → ¬(0 ≤ atCell.row + (rr : Int) ∧
        atCell.row + (rr : Int) < (base.height : Int) ∧ (atCell.row + (rr : Int)).toNat = r')) →
      (pasteRectIntoBuffer base atCell (some clip)).lines.getD r' []
        = base.lines.getD r' []) ∧
    (∀ r j : Nat, r < clip.height →
      0 ≤ atCell.row + (r : Int) → atCell.row + (r : Int) < (base.height : Int) →
      ((j : Int) < atCell.col ∨ atCell.col + (clip.width : Int) ≤ (j : Int)) →
      ((pasteRectIntoBuffer base atCell (some clip)).lines.getD
          (atCell.row + (r : Int)).toNat []).getD j ' '
        = (base.lines.getD (atCell.row + (r : Int)).toNat []).getD j ' ') := by
  have hl0 : (cloneLines base.lines base.height).length = base.height :=
    cloneLines_length _ _
  have hn0 : ∀ r' : Nat, narrowLine ((cloneLines base.lines base.height).getD r' []) = true := by
    intro r'
    rw [cloneLines_getD]
    by_cases h : r' < base.height
    · rw [if_pos h]
      by_cases h2 : r' < base.lines.length
      · exact (hbase _ (by rw [List.getD_eq_getElem _ _ h2]; exact List.getElem_mem _)).1
      · rw [List.getD_eq_default _ _ (by omega)]; rfl
    · rw [if_neg h]; rfl
  have hw0 : ∀ r' : Nat, ((cloneLines base.lines base.height).getD r' []).length
      ≤ base.width := by
    intro r'
    rw [cloneLines_getD]
    by_cases h : r' < base.height
    · rw [if_pos h]
      by_cases h2 : r' < base.lines.length
      · exact (hbase _ (by rw [List.getD_eq_getElem _ _ h2]; exact List.getElem_mem _)).2
      · rw [List.getD_eq_default _ _ (by omega)]; simp
    · rw [if_neg h]; simp
  have hclone : ∀ r' : Nat, (cloneLines base.lines base.height).getD r' []
      = base.lines.getD r' [] := by
    intro r'
    rw [cloneLines_getD]
    by_cases h : r' < base.height
    · rw [if_pos h]
    · rw [if_neg h, List.getD_eq_default _ _ (by omega)]
  obtain ⟨ho1, ho2, ho3, ho4⟩ := pasteStepRow_fold base atCell clip
    (cloneLines base.lines base.height) hl0 hn0 hw0 hclip clip.height
  have hunfold : (pasteRectIntoBuffer base atCell (some clip)).lines
      = (List.range clip.height).foldl (pasteStepRow base atCell clip)
          (cloneLines base.lines base.height) := rfl
  refine ⟨rfl, rfl, rfl, by rw [hunfold]; exact ho1, ?_, ?_, ?_⟩
  · intro r c hr hc h1 h2 h3 h4
    rw [hunfold]
    have := (ho4 r hr h1 h2).1 c hc h3 h4
    simpa [toCells] using this
  · intro r' hr'
    rw [hunfold, ho3 r' hr', hclone]
  · intro r j hr h1 h2 hj
    rw [hunfold, (ho4 r hr h1 h2).2 j hj, hclone]

/-- C8 witness: a 2×1 narrow clipboard pasted at (0,1) of a 3×2 narrow
buffer, checked at an in-bounds offset, an untouched row, and an untouched
column. -/
theorem C8_paste_amended_witness :
    pasteRectIntoBuffer ⟨3, 2, ["abc".toList, "def".toList]⟩ ⟨0, 1⟩ none
      = ⟨3, 2, ["abc".toList, "def".toList]⟩ ∧
    ((pasteRectIntoBuffer ⟨3, 2, ["abc".toList, "def".toList]⟩ ⟨0, 1⟩
        (some ⟨2, 1, ["XY".toList], ⟨0, 0⟩⟩)).lines.getD ((0 : Int) + (0 : Nat)).toNat
          []).getD ((1 : Int) + (0 : Nat)).toNat ' '
      = ((["XY".toList] : List Line).getD 0 []).getD 0 ' ' ∧
    (pasteRectIntoBuffer ⟨3, 2, ["abc".toList, "def".toList]⟩ ⟨0, 1⟩
        (some ⟨2, 1, ["XY".toList], ⟨0, 0⟩⟩)).lines.getD 1 []
      = (["abc".toList, "def".toList] : List Line).getD 1 [] ∧
    ((pasteRectIntoBuffer ⟨3, 2, ["abc".toList, "def".toList]⟩ ⟨0, 1⟩
        (some ⟨2, 1, ["XY".toList], ⟨0, 0⟩⟩)).lines.getD ((0 : Int) + (0 : Nat)).toNat
          []).getD 0 ' '
      = ((["abc".toList, "def".toList] : List Line).getD ((0 : Int) + (0 : Nat)).toNat
          []).getD 0 ' ' := by
  have h := C8_paste_amended ⟨3, 2, ["abc".toList, "def".toList]⟩ ⟨0, 1⟩
    ⟨2, 1, ["XY".toList], ⟨0, 0⟩⟩ (by decide) (by decide) (by decide)
  refine ⟨h.1, ?_, ?_, ?_⟩
  · exact h.2.2.2.2.1 0 0 (by decide) (by decide) (by decide) (by decide) (by decide)
      (by decide)
  · exact h.2.2.2.2.2.1 1 (by intro rr hrr; interval_cases rr <;> simp <;> omega)
  · exact h.2.2.2.2.2.2 0 0 (by decide) (by decide) (by decide) (by decide)


theorem narrowLine_cons {c : Char} {l : Line} (h : narrowLine (c :: l) = true) :
    (¬(c = CONTINUATION_CELL) ∧ cellDisplayWidth c = 1) ∧ narrowLine l = true := by
  simp only [narrowLine, List.all_cons, Bool.and_eq_true, Bool.not_eq_true',
    decide_eq_false_iff_not, decide_eq_true_eq] at h ⊢
  exact h

theorem getCellAt_narrow {l : Line} (h : narrowLine l = true) (i : Nat) :
    getCellAt l i = l.getD i ' ' := by
  induction l generalizing i with
  | nil => cases i <;> rfl
  | cons c rest ih =>
    obtain ⟨⟨hc, hw⟩, hrest⟩ := narrowLine_cons h
    unfold getCellAt getCellAtAux
    rw [if_neg (by simp [hc]), if_neg hc, if_neg (by omega)]
    cases i with
    | zero => rfl
    | succ n =>
      rw [if_neg (by omega)]
      exact ih hrest n

theorem snapAux_narrow {l : Line} (h : narrowLine l = true) (n : Nat) :
    snapColToCellStartAux l n = n := by
  cases n with
  | zero => rfl
  | succ n =>
    unfold snapColToCellStartAux
    rw [if_neg]
    rw [getCellAt_narrow h]
    exact (narrowLine_getD h _).1

theorem snapColToCellStart_narrow {l : Line} (h : narrowLine l = true) (col : Int)
    (width : Nat) (h1 : 0 ≤ col) (h2 : col < (width : Int)) :
    ((snapColToCellStart l col width : Nat) : Int) = col := by
  unfold snapColToCellStart
  rw [snapAux_narrow h]
  unfold clampInt
  omega

theorem lineAtI_narrow {lines : List Line} (h : ∀ l ∈ lines, narrowLine l = true)
    (row : Int) : narrowLine (lineAtI lines row) = true := by
  unfold lineAtI
  split
  · next hr =>
    have hlt : row.toNat < lines.length := by omega
    exact h _ (by rw [List.getD_eq_getElem _ _ hlt]; exact List.getElem_mem _)
  · rfl

theorem getCellAtI_narrow {l : Line} (h : narrowLine l = true) (c : Int) :
    getCellAtI l c ≠ CONTINUATION_CELL := by
  unfold getCellAtI
  split
  · decide
  · rw [getCellAt_narrow h]
    exact (narrowLine_getD h _).1

theorem clearContinuationRight_narrow {lines : List Line}
    (h : ∀ l ∈ lines, narrowLine l = true) (row col : Int) (width : Nat) :
    clearContinuationRight lines row col width = lines := by
  unfold clearContinuationRight
  cases hk : ((width : Int) - (col + 1)).toNat with
  | zero => rfl
  | succ k =>
    unfold clearContRightAux
    rw [if_neg (getCellAtI_narrow (lineAtI_narrow h row) _)]

theorem getD_take_lt {α : Type} (l : List α) (n i : Nat) (d : α) (h : i < n) :
    (l.take n).getD i d = l.getD i d := by
  by_cases hi : i < l.length
  · rw [List.getD_eq_getElem _ _ (by simp; omega), List.getD_eq_getElem _ _ hi]
    simp [List.getElem_take]
  · rw [List.getD_eq_default _ _ (by simp; omega), List.getD_eq_default _ _ (by omega)]

theorem narrowLine_take {l : Line} (h : narrowLine l = true) (n : Nat) :
    narrowLine (l.take n) = true := by
  rw [narrowLine, List.all_eq_true]
  intro c hc
  have := narrowLine_mem h (List.take_subset _ _ hc)
  simp [this.1, this.2]


theorem scanWallLeft_le (lines : List Line) (row : Nat) :
    ∀ (c w : Nat), scanWallLeft lines row c = some w → w ≤ c := by
  intro c
  induction c with
  | zero =>
    intro w h
    simp only [scanWallLeft] at h
    split at h
    · simp only [Option.some.injEq] at h
      omega
    · exact absurd h (by simp)
  | succ n ih =>
    intro w h
    simp only [scanWallLeft] at h
    split at h
    · simp only [Option.some.injEq] at h
      omega
    · exact Nat.le_trans (ih w h) (by omega)

theorem scanWallRightAux_bound (lines : List Line) (row : Nat) :
    ∀ (k c w : Nat), scanWallRightAux lines row c k = some w → c ≤ w ∧ w < c + k := by
  intro k
  induction k with
  | zero =>
    intro c w h
    exact absurd h (by simp [scanWallRightAux])
  | succ n ih =>
    intro c w h
    simp only [scanWallRightAux] at h
    split at h
    · simp only [Option.some.injEq] at h
      omega
    · have := ih (c + 1) w h
      omega

theorem scanWallRight_bound (lines : List Line) (row width c w : Nat)
    (h : scanWallRight lines row width c = some w) : c ≤ w ∧ w < width := by
  simp only [scanWallRight] at h
  have hb := scanWallRightAux_bound lines row (width - c) c w h
  have hk : width - c ≠ 0 := by
    intro hk
    rw [hk] at h
    exact absurd h (by simp [scanWallRightAux])
  omega

theorem findTopBorder_le (lines : List Line) (lw rw : Nat) :
    ∀ (r t : Nat), findTopBorder lines lw rw r = some t → t ≤ r := by
  intro r
  induction r with
  | zero =>
    intro t h
    simp only [findTopBorder] at h
    split at h
    · simp only [Option.some.injEq] at h
      omega
    · exact absurd h (by simp)
  | succ n ih =>
    intro t h
    simp only [findTopBorder] at h
    split at h
    · simp only [Option.some.injEq] at h
      omega
    · exact Nat.le_trans (ih t h) (by omega)

theorem findBottomBorderAux_bound (lines : List Line) (lw rw : Nat) :
    ∀ (k r bt : Nat), findBottomBorderAux lines lw rw r k = some bt → r ≤ bt ∧ bt < r + k := by
  intro k
  induction k with
  | zero =>
    intro r bt h
    exact absurd h (by simp [findBottomBorderAux])
  | succ n ih =>
    intro r bt h
    simp only [findBottomBorderAux] at h
    split at h
    · simp only [Option.some.injEq] at h
      omega
    · have := ih (r + 1) bt h
      omega

theorem findBottomBorder_bound (lines : List Line) (lw rw height r bt : Nat)
    (h : findBottomBorder lines lw rw height r = some bt) : r ≤ bt ∧ bt < height := by
  simp only [findBottomBorder] at h
  have hb := findBottomBorderAux_bound lines lw rw (height - r) r bt h
  have hk : height - r ≠ 0 := by
    intro hk
    rw [hk] at h
    exact absurd h (by simp [findBottomBorderAux])
  omega

theorem findEnclosingBoxBounds_facts (lines : List Line) (width height : Nat)
    (atCell : Cell) (b : BoxBounds)
    (h : findEnclosingBoxBounds lines width height atCell = some b) :
    1 ≤ b.leftInner ∧
    b.leftInner ≤ (clampInt atCell.col 0 ((width : Int) - 1)).toNat ∧
    (clampInt atCell.col 0 ((width : Int) - 1)).toNat ≤ b.rightInner ∧
    b.rightInner + 2 ≤ width ∧
    1 ≤ b.topInner ∧
    b.topInner ≤ (clampInt atCell.row 0 ((height : Int) - 1)).toNat ∧
    (clampInt atCell.row 0 ((height : Int) - 1)).toNat ≤ b.bottomInner ∧
    b.topInner ≤ b.bottomInner ∧
    b.bottomInner + 2 ≤ height := by
  simp only [findEnclosingBoxBounds] at h
  split at h
  · exact absurd h (by simp)
  · split at h
    · next lw rw hL hR =>
      split at h
      · exact absurd h (by simp)
      · next hsep =>
        split at h
        · next top bottom hT hB =>
          split at h
          · exact absurd h (by simp)
          · split at h
            · exact absurd h (by simp)
            · split at h
              · exact absurd h (by simp)
              · split at h
                · exact absurd h (by simp)
                · next hrowok hcolok =>
                  simp only [Option.some.injEq] at h
                  subst h
                  have h1 := scanWallLeft_le lines _ _ _ hL
                  have h2 := scanWallRight_bound lines _ _ _ _ hR
                  have h3 := findTopBorder_le lines _ _ _ _ hT
                  have h4 := findBottomBorder_bound lines _ _ _ _ _ hB
                  push_neg at hsep
                  simp only [not_or, not_lt] at hrowok hcolok
                  simp only
                  omega
        · exact absurd h (by simp)
    · exact absurd h (by simp)


theorem getD_line_narrow {lines : List Line} {width : Nat}
    (h : ∀ l ∈ lines, narrowLine l = true ∧ l.length ≤ width) (i : Nat) :
    narrowLine (lines.getD i []) = true ∧ (lines.getD i []).length ≤ width := by
  by_cases hi : i < lines.length
  · exact h _ (by rw [List.getD_eq_getElem _ _ hi]; exact List.getElem_mem _)
  · rw [List.getD_eq_default _ _ (by omega)]
    exact ⟨rfl, by simp⟩

theorem overwrite_write_inv (width height : Nat) (b : BoxBounds) (lines0 : List Line)
    (st : OverwriteState) (row col : Int) (ch : Char)
    (hch : ¬(ch = CONTINUATION_CELL)) (hw : cellDisplayWidth ch = 1)
    (hb3 : b.rightInner + 2 ≤ width) (hb6 : b.bottomInner + 2 ≤ height)
    (hr1 : (b.topInner : Int) ≤ row) (hr2 : row ≤ (b.bottomInner : Int))
    (hc1 : (b.leftInner : Int) ≤ col) (hc2 : col ≤ (b.rightInner : Int))
    (hL1 : st.lines.length = height)
    (hL2 : ∀ l ∈ st.lines, narrowLine l = true ∧ l.length ≤ width)
    (hF : ∀ r c' : Nat,
      (r < b.topInner ∨ b.bottomInner < r ∨ c' < b.leftInner ∨ b.rightInner < c') →
      (st.lines.getD r []).getD c' ' ' = (lines0.getD r []).getD c' ' ') :
    (setCharInLines (clearContinuationRight st.lines row col width) row col ch
        width).length = height ∧
    (∀ l ∈ setCharInLines (clearContinuationRight st.lines row col width) row col ch width,
      narrowLine l = true ∧ l.length ≤ width) ∧
    (∀ r c' : Nat,
      (r < b.topInner ∨ b.bottomInner < r ∨ c' < b.leftInner ∨ b.rightInner < c') →
      ((setCharInLines (clearContinuationRight st.lines row col width) row col ch
          width).getD r []).getD c' ' '
        = (lines0.getD r []).getD c' ' ') := by
  have hclear : clearContinuationRight st.lines row col width = st.lines :=
    clearContinuationRight_narrow (fun l hl => (hL2 l hl).1) row col width
  rw [hclear]
  have hrow := getD_line_narrow hL2 row.toNat
  have hset := setCharInLines_narrow st.lines row col ch width
    (by omega) (by omega) (by omega) (by omega) hrow.1 hch hw
  rw [hset]
  refine ⟨by rw [List.length_set]; exact hL1, ?_, ?_⟩
  · intro l hl
    rcases List.mem_or_eq_of_mem_set hl with hl | hl
    · exact hL2 l hl
    · subst hl
      constructor
      · exact narrowLine_take
          (narrowLine_setNarrowCell hrow.1 col.toNat hch hw) width
      · rw [List.length_take]
        omega
  · intro r c' hout
    by_cases hr : r = row.toNat
    · subst hr
      have hrin : b.topInner ≤ row.toNat ∧ row.toNat ≤ b.bottomInner := by omega
      have hcne : c' ≠ col.toNat := by omega
      rw [getD_set_eq _ _ (by omega)]
      by_cases hcw : c' < width
      · rw [getD_take_lt _ _ _ _ hcw, setNarrowCell_getD_ne _ _ _ _ hcne]
        exact hF _ c' hout
      · rw [List.getD_eq_default _ _ (by rw [List.length_take]; omega),
          ← hF _ c' hout, List.getD_eq_default _ _ (by omega)]
    · rw [getD_set_ne _ _ hr]
      exact hF r c' hout


theorem overwriteStep_inv (width height : Nat) (b : BoxBounds) (lines0 : List Line)
    (hb1 : 1 ≤ b.leftInner) (hb2 : b.leftInner ≤ b.rightInner)
    (hb3 : b.rightInner + 2 ≤ width) (hb5 : b.topInner ≤ b.bottomInner)
    (hb6 : b.bottomInner + 2 ≤ height)
    (st : OverwriteState) (ch : Char)
    (hch : ¬(ch = CONTINUATION_CELL)) (hw : cellDisplayWidth ch = 1)
    (hL1 : st.lines.length = height)
    (hL2 : ∀ l ∈ st.lines, narrowLine l = true ∧ l.length ≤ width)
    (hF : ∀ r c' : Nat,
      (r < b.topInner ∨ b.bottomInner < r ∨ c' < b.leftInner ∨ b.rightInner < c') →
      (st.lines.getD r []).getD c' ' ' = (lines0.getD r []).getD c' ' ') :
    (overwriteStep width height (some b) (b.leftInner : Int) st ch).lines.length = height ∧
    (∀ l ∈ (overwriteStep width height (some b) (b.leftInner : Int) st ch).lines,
      narrowLine l = true ∧ l.length ≤ width) ∧
    (∀ r c' : Nat,
      (r < b.topInner ∨ b.bottomInner < r ∨ c' < b.leftInner ∨ b.rightInner < c') →
      ((overwriteStep width height (some b) (b.leftInner : Int) st ch).lines.getD r
          []).getD c' ' '
        = (lines0.getD r []).getD c' ' ') := by
  have hnarrow : ∀ l ∈ st.lines, narrowLine l = true := fun l hl => (hL2 l hl).1
  by_cases hstop : st.stopped = true
  · simp only [overwriteStep, hstop, if_true]
    exact ⟨hL1, hL2, hF⟩
  rw [Bool.not_eq_true] at hstop
  by_cases hcr : ch = '\r'
  · simp only [overwriteStep, hstop, Bool.false_eq_true, if_false, hcr, if_true]
    exact ⟨hL1, hL2, hF⟩
  by_cases hnl : ch = '\n'
  · simp only [overwriteStep, hstop, Bool.false_eq_true, if_false, hcr, hnl, if_true]
    refine ⟨?_, ?_, ?_⟩ <;> (repeat' split) <;>
      first | exact hL1 | exact hL2 | exact hF
  simp only [overwriteStep, hstop, Bool.false_eq_true, if_false, hcr, hnl, hch, hw]
  by_cases hA : st.row < (b.topInner : Int) ∨ (b.bottomInner : Int) < st.row
  · rw [if_pos hA]
    simp only [if_true]
    exact ⟨hL1, hL2, hF⟩
  rw [if_neg hA]
  push_neg at hA
  by_cases hcl : st.col < (b.leftInner : Int)
  · rw [if_pos hcl]
    by_cases hB : (b.rightInner : Int) < (b.leftInner : Int)
    · exact absurd hB (by omega)
    rw [if_neg hB]
    simp only [hstop, Bool.false_eq_true, if_false]
    have hsnap := snapColToCellStart_narrow (lineAtI_narrow hnarrow st.row)
      (b.leftInner : Int) width (by omega) (by omega)
    rw [hsnap]
    have h12 : ((1 : Nat) = 2) = False := by simp
    simp only [h12, false_and, if_false, hstop, Bool.false_eq_true]
    obtain ⟨w1, w2, w3⟩ := overwrite_write_inv width height b lines0 st st.row
      (b.leftInner : Int) ch hch hw hb3 hb6 (by omega) (by omega) (by omega) (by omega)
      hL1 hL2 hF
    refine ⟨?_, ?_, ?_⟩ <;> (repeat' split) <;>
      first | exact w1 | exact w2 | exact w3
  rw [if_neg hcl]
  push_neg at hcl
  by_cases hB : (b.rightInner : Int) < st.col
  · rw [if_pos hB]
    by_cases hC : (b.bottomInner : Int) ≤ st.row
    · rw [if_pos hC]
      simp only [if_true]
      exact ⟨hL1, hL2, hF⟩
    rw [if_neg hC]
    push_neg at hC
    by_cases hD : (height : Int) ≤ st.row + 1
    · rw [if_pos hD]
      simp only [if_true]
      exact ⟨hL1, hL2, hF⟩
    rw [if_neg hD]
    push_neg at hD
    simp only [hstop, Bool.false_eq_true, if_false]
    have hsnap := snapColToCellStart_narrow (lineAtI_narrow hnarrow (st.row + 1))
      (b.leftInner : Int) width (by omega) (by omega)
    rw [hsnap]
    have h12 : ((1 : Nat) = 2) = False := by simp
    simp only [h12, false_and, if_false, hstop, Bool.false_eq_true]
    obtain ⟨w1, w2, w3⟩ := overwrite_write_inv width height b lines0 st (st.row + 1)
      (b.leftInner : Int) ch hch hw hb3 hb6 (by omega) (by omega) (by omega) (by omega)
      hL1 hL2 hF
    refine ⟨?_, ?_, ?_⟩ <;> (repeat' split) <;>
      first | exact w1 | exact w2 | exact w3
  rw [if_neg hB]
  push_neg at hB
  simp only [hstop, Bool.false_eq_true, if_false]
  have hsnap := snapColToCellStart_narrow (lineAtI_narrow hnarrow st.row)
    st.col width (by omega) (by omega)
  rw [hsnap]
  have h12 : ((1 : Nat) = 2) = False := by simp
  simp only [h12, false_and, if_false, hstop, Bool.false_eq_true]
  obtain ⟨w1, w2, w3⟩ := overwrite_write_inv width height b lines0 st st.row
    st.col ch hch hw hb3 hb6 (by omega) (by omega) (by omega) (by omega)
    hL1 hL2 hF
  refine ⟨?_, ?_, ?_⟩ <;> (repeat' split) <;>
    first | exact w1 | exact w2 | exact w3


theorem replaceCrLf_mem : ∀ (t : List Char) (c : Char), c ∈ replaceCrLf t → c ∈ t ∨ c = '\n' := by
  intro t
  induction t using replaceCrLf.induct with
  | case1 rest ih =>
    intro c hc
    simp only [replaceCrLf] at hc
    rcases List.mem_cons.mp hc with hc | hc
    · exact Or.inr hc
    · rcases ih c hc with hc | hc
      · exact Or.inl (by simp [hc])
      · exact Or.inr hc
  | case2 c0 rest h ih =>
    intro c hc
    simp only [replaceCrLf] at hc
    rcases List.mem_cons.mp hc with hc | hc
    · exact Or.inl (by simp [hc])
    · rcases ih c hc with hc | hc
      · exact Or.inl (by simp [hc])
      · exact Or.inr hc
  | case3 =>
    intro c hc
    simp only [replaceCrLf] at hc
    exact absurd hc (by simp)

theorem overwriteFold_inv (width height : Nat) (b : BoxBounds) (lines0 : List Line)
    (hb1 : 1 ≤ b.leftInner) (hb2 : b.leftInner ≤ b.rightInner)
    (hb3 : b.rightInner + 2 ≤ width) (hb5 : b.topInner ≤ b.bottomInner)
    (hb6 : b.bottomInner + 2 ≤ height) :
    ∀ (text : List Char) (st : OverwriteState),
    (∀ c ∈ text, ¬(c = CONTINUATION_CELL) ∧ cellDisplayWidth c = 1) →
    st.lines.length = height →
    (∀ l ∈ st.lines, narrowLine l = true ∧ l.length ≤ width) →
    (∀ r c' : Nat,
      (r < b.topInner ∨ b.bottomInner < r ∨ c' < b.leftInner ∨ b.rightInner < c') →
      (st.lines.getD r []).getD c' ' ' = (lines0.getD r []).getD c' ' ') →
    ((text.foldl (overwriteStep width height (some b) (b.leftInner : Int)) st).lines.length
        = height ∧
     (∀ l ∈ (text.foldl (overwriteStep width height (some b) (b.leftInner : Int)) st).lines,
        narrowLine l = true ∧ l.length ≤ width) ∧
     (∀ r c' : Nat,
        (r < b.topInner ∨ b.bottomInner < r ∨ c' < b.leftInner ∨ b.rightInner < c') →
        ((text.foldl (overwriteStep width height (some b) (b.leftInner : Int)) st).lines.getD
            r []).getD c' ' '
          = (lines0.getD r []).getD c' ' ')) := by
  intro text
  induction text with
  | nil =>
    intro st htext h1 h2 h3
    exact ⟨h1, h2, h3⟩
  | cons c rest ih =>
    intro st htext h1 h2 h3
    have hc := htext c (by simp)
    obtain ⟨g1, g2, g3⟩ := overwriteStep_inv width height b lines0 hb1 hb2 hb3 hb5 hb6
      st c hc.1 hc.2 h1 h2 h3
    exact ih _ (fun x hx => htext x (by simp [hx])) g1 g2 g3


set_option maxRecDepth 100000 in
/-- C3 (amended): when the insertion point lies inside an enclosing drawn
box, `overwriteTextIntoBuffer` leaves every cell outside the box's inner
region (the border itself and everything beyond it) unchanged and keeps
the buffer dimensions, provided every buffer cell and every typed
character is a narrow, non-sentinel grapheme; typed text wraps at the
box's inner right edge back to the inner left edge of the next inner row,
and stops writing once it would pass the inner bottom edge, as the two
closing scenario conjuncts show on a 5×4 ASCII box.  (For wide buffer
content the frame clause fails: `snapColToCellStart` can move the write
one column left of the inner region, the proven counterexample.) -/
theorem C3_overwrite_amended (base : TextBuffer) (atCell : Cell) (text : List Char)
    (b : BoxBounds)
    (hlen : base.lines.length = base.height)
    (hbase : ∀ l ∈ base.lines, narrowLine l = true ∧ l.length ≤ base.width)
    (htext : ∀ c ∈ text, ¬(c = CONTINUATION_CELL) ∧ cellDisplayWidth c = 1)
    (hb : findEnclosingBoxBounds (cloneLines base.lines base.height) base.width base.height
      { row := clampInt atCell.row 0 ((base.height : Int) - 1),
        col := (snapColToCellStart
          (lineAtI (cloneLines base.lines base.height)
            (clampInt atCell.row 0 ((base.height : Int) - 1)))
          (clampInt atCell.col 0 ((base.width : Int) - 1)) base.width : Nat) } = some b) :
    (∀ r c : Nat,
      (r < b.topInner ∨ b.bottomInner < r ∨ c < b.leftInner ∨ b.rightInner < c) →
      ((overwriteTextIntoBuffer base atCell text).1.lines.getD r []).getD c ' '
        = (base.lines.getD r []).getD c ' ') ∧
    (overwriteTextIntoBuffer base atCell text).1.width = base.width ∧
    (overwriteTextIntoBuffer base atCell text).1.height = base.height ∧
    (overwriteTextIntoBuffer base atCell text).1.lines.length = base.height ∧
    (overwriteTextIntoBuffer
        ⟨5, 4, ["+---+".toList, "|   |".toList, "|   |".toList, "+---+".toList]⟩
        ⟨1, 1⟩ "abcdef".toList).1.lines
      = ["+---+".toList, "|abc|".toList, "|def|".toList, "+---+".toList] ∧
    (overwriteTextIntoBuffer
        ⟨5, 4, ["+---+".toList, "|   |".toList, "|   |".toList, "+---+".toList]⟩
        ⟨1, 1⟩ "abcdefghij".toList).1.lines
      = ["+---+".toList, "|abc|".toList, "|def|".toList, "+---+".toList] := by
  have hfacts := findEnclosingBoxBounds_facts _ _ _ _ _ hb
  have hl0 : (cloneLines base.lines base.height).length = base.height := cloneLines_length _ _
  have hl2 : ∀ l ∈ cloneLines base.lines base.height,
      narrowLine l = true ∧ l.length ≤ base.width := by
    intro l hl
    obtain ⟨i, hi, rfl⟩ := List.mem_map.mp hl
    exact getD_line_narrow hbase i
  have htext2 : ∀ c ∈ toCells (replaceCrLf text),
      ¬(c = CONTINUATION_CELL) ∧ cellDisplayWidth c = 1 := by
    intro c hc
    rcases replaceCrLf_mem text c hc with hc | hc
    · exact htext c hc
    · subst hc
      exact ⟨by decide, by decide⟩
  obtain ⟨g1, g2, g3⟩ := overwriteFold_inv base.width base.height b
    (cloneLines base.lines base.height) (by omega) (by omega) (by omega) (by omega)
    (by omega) (toCells (replaceCrLf text))
    { lines := cloneLines base.lines base.height
      row := clampInt atCell.row 0 ((base.height : Int) - 1)
      col := (snapColToCellStart
        (lineAtI (cloneLines base.lines base.height)
          (clampInt atCell.row 0 ((base.height : Int) - 1)))
        (clampInt atCell.col 0 ((base.width : Int) - 1)) base.width : Nat)
      stopped := false }
    htext2 hl0 hl2 (fun r c' _ => rfl)
  have hres : (overwriteTextIntoBuffer base atCell text).1.lines
      = ((toCells (replaceCrLf text)).foldl
          (overwriteStep base.width base.height (some b) (b.leftInner : Int))
          { lines := cloneLines base.lines base.height
            row := clampInt atCell.row 0 ((base.height : Int) - 1)
            col := (snapColToCellStart
              (lineAtI (cloneLines base.lines base.height)
                (clampInt atCell.row 0 ((base.height : Int) - 1)))
              (clampInt atCell.col 0 ((base.width : Int) - 1)) base.width : Nat)
            stopped := false }).lines := by
    simp only [overwriteTextIntoBuffer]
    rw [hb]
  refine ⟨?_, rfl, rfl, ?_, by decide, by decide⟩
  · intro r c hout
    rw [hres, g3 r c hout, cloneLines_getD]
    by_cases hr : r < base.height
    · rw [if_pos hr]
    · rw [if_neg hr, List.getD_eq_default base.lines _ (by omega)]
  · rw [hres]
    exact g1


set_option maxRecDepth 100000 in
/-- C3 witness: in a 5×4 ASCII box, typing "ab" at the inner top-left
cell leaves the top border cell (0,0) and the border column 0 of row 1
unchanged, and the wrap scenario equality holds. -/
theorem C3_overwrite_amended_witness :
    (((overwriteTextIntoBuffer
        ⟨5, 4, ["+---+".toList, "|   |".toList, "|   |".toList, "+---+".toList]⟩
        ⟨1, 1⟩ "ab".toList).1.lines.getD 0 []).getD 0 ' '
      = ((["+---+".toList, "|   |".toList, "|   |".toList, "+---+".toList] :
          List Line).getD 0 []).getD 0 ' ') ∧
    (((overwriteTextIntoBuffer
        ⟨5, 4, ["+---+".toList, "|   |".toList, "|   |".toList, "+---+".toList]⟩
        ⟨1, 1⟩ "ab".toList).1.lines.getD 1 []).getD 0 ' '
      = ((["+---+".toList, "|   |".toList, "|   |".toList, "+---+".toList] :
          List Line).getD 1 []).getD 0 ' ') ∧
    (overwriteTextIntoBuffer
        ⟨5, 4, ["+---+".toList, "|   |".toList, "|   |".toList, "+---+".toList]⟩
        ⟨1, 1⟩ "abcdef".toList).1.lines
      = ["+---+".toList, "|abc|".toList, "|def|".toList, "+---+".toList] := by
  have h := C3_overwrite_amended
    ⟨5, 4, ["+---+".toList, "|   |".toList, "|   |".toList, "+---+".toList]⟩
    ⟨1, 1⟩ "ab".toList ⟨0, 4, 0, 3, 1, 3, 1, 2⟩
    (by decide) (by decide) (by decide) (by decide)
  exact ⟨h.1 0 0 (by decide), h.1 1 0 (by decide), h.2.2.2.2.1⟩

end TxEditor
